import Mathlib

set_option linter.unusedSectionVars false

/-!
Verification of the in-memory coordination core of a websockets chat server
(room membership, connection index, reaction aggregation, event routing,
handlers, disconnect cleanup).

JavaScript Map and Set objects are embedded as association lists
(insertion-ordered key/value pairs) and element lists.  All operations
mirror the TypeScript source: Map.set replaces the entry in place keeping
insertion order, or appends a fresh entry at the end; Map.delete removes
the entry; Map.get reads the entry; Set.add appends if absent.
-/

section JMapModel

variable {α : Type} {β : Type} [BEq α] [LawfulBEq α]

/-- Association-list model of a JavaScript Map: ordered key/value pairs. -/
abbrev JMap (α β : Type) : Type := List (α × β)

/-- Map.get: value stored at the first entry with the given key. -/
def jget : JMap α β → α → Option β
  | [], _ => none
  | p :: rest, k => if p.1 == k then some p.2 else jget rest k

/-- Map.has. -/
def jhas (m : JMap α β) (k : α) : Bool := (jget m k).isSome

/-- Map.set: replace the entry in place if the key is present, else append. -/
def jset : JMap α β → α → β → JMap α β
  | [], k, v => [(k, v)]
  | p :: rest, k, v => if p.1 == k then (k, v) :: rest else p :: jset rest k v

/-- Map.delete. -/
def jdel (m : JMap α β) (k : α) : JMap α β :=
  m.filter (fun p => !(p.1 == k))

/-- In-place mutation of the value stored at a key (a no-op if absent). -/
def jupdate : JMap α β → α → (β → β) → JMap α β
  | [], _, _ => []
  | p :: rest, k, f => if p.1 == k then (k, f p.2) :: rest else p :: jupdate rest k f

/-- Map.values as a list, in insertion order. -/
def jvalues (m : JMap α β) : List β := m.map (·.2)

/-- Set.add: append if the element is absent. -/
def sadd (rs : List α) (x : α) : List α :=
  if rs.contains x then rs else rs ++ [x]

/-- Set.delete. -/
def sdel (rs : List α) (x : α) : List α :=
  rs.filter (fun y => !(y == x))

theorem jget_nil (k : α) : jget ([] : JMap α β) k = none := rfl

theorem jget_jset_self (m : JMap α β) (k : α) (v : β) :
    jget (jset m k v) k = some v := by
  induction m with
  | nil => simp [jget, jset]
  | cons p rest ih =>
    by_cases h : p.1 == k
    · simp [jget, jset, h]
    · simp only [jset, h, Bool.false_eq_true, if_false, jget, ih]

theorem jget_jset_ne (m : JMap α β) {k k' : α} (v : β) (h : k ≠ k') :
    jget (jset m k v) k' = jget m k' := by
  induction m with
  | nil => simp [jget, jset, h]
  | cons p rest ih =>
    by_cases hp : p.1 == k
    · have hpk : p.1 = k := by simpa using hp
      simp [jget, jset, hp, hpk, h]
    · simp only [jset, hp, Bool.false_eq_true, if_false, jget, ih]

theorem jget_jdel_self (m : JMap α β) (k : α) : jget (jdel m k) k = none := by
  induction m with
  | nil => simp [jget, jdel]
  | cons p rest ih =>
    by_cases hp : p.1 == k
    · simpa [jdel, hp] using ih
    · simpa [jdel, List.filter, hp, jget] using ih

theorem jget_jdel_ne (m : JMap α β) {k k' : α} (h : k ≠ k') :
    jget (jdel m k) k' = jget m k' := by
  induction m with
  | nil => simp [jget, jdel]
  | cons p rest ih =>
    by_cases hp : p.1 == k
    · have hpk : p.1 = k := by simpa using hp
      have hne : (p.1 == k') = false := by
        rw [hpk, beq_eq_false_iff_ne]
        exact h
      simp only [jdel, List.filter] at ih ⊢
      simp only [hp, Bool.not_true, jget]
      rw [ih]
      simp [jget, hne]
    · simp only [jdel, List.filter] at ih ⊢
      simp only [hp, Bool.not_false, jget]
      by_cases hq : p.1 == k'
      · simp [jget, hq]
      · simp [jget, hq, ih]

theorem jget_jupdate_self (m : JMap α β) (k : α) (f : β → β) :
    jget (jupdate m k f) k = (jget m k).map f := by
  induction m with
  | nil => simp [jget, jupdate]
  | cons p rest ih =>
    by_cases hp : p.1 == k
    · simp [jget, jupdate, hp]
    · simp only [jupdate, hp, Bool.false_eq_true, if_false, jget, ih]

theorem jget_jupdate_ne (m : JMap α β) {k k' : α} (f : β → β) (h : k ≠ k') :
    jget (jupdate m k f) k' = jget m k' := by
  induction m with
  | nil => simp [jget, jupdate]
  | cons p rest ih =>
    by_cases hp : p.1 == k
    · have hpk : p.1 = k := by simpa using hp
      simp [jget, jupdate, hp, hpk, h]
    · simp only [jupdate, hp, Bool.false_eq_true, if_false, jget, ih]

theorem jupdate_jset (m : JMap α β) (k : α) (v : β) (f : β → β) :
    jupdate (jset m k v) k f = jset m k (f v) := by
  induction m with
  | nil => simp [jset, jupdate]
  | cons p rest ih =>
    by_cases hp : p.1 == k
    · simp [jset, jupdate, hp]
    · simp [jset, jupdate, hp, ih]

theorem jset_jset (m : JMap α β) (k : α) (v w : β) :
    jset (jset m k v) k w = jset m k w := by
  induction m with
  | nil => simp [jset]
  | cons p rest ih =>
    by_cases hp : p.1 == k
    · simp [jset, hp]
    · simp [jset, hp, ih]

theorem jset_get_self (m : JMap α β) {k : α} {v : β} (h : jget m k = some v) :
    jset m k v = m := by
  induction m with
  | nil => simp [jget] at h
  | cons p rest ih =>
    by_cases hp : p.1 == k
    · have hpk : p.1 = k := by simpa using hp
      simp only [jget, hp, if_pos, Option.some.injEq] at h
      simp [jset, hp, ← h, ← hpk]
    · simp only [jget, hp, Bool.false_eq_true, if_false] at h
      simp [jset, hp, ih h]

theorem jupdate_get (m : JMap α β) {k : α} {v : β} (f : β → β)
    (h : jget m k = some v) : jupdate m k f = jset m k (f v) := by
  induction m with
  | nil => simp [jget] at h
  | cons p rest ih =>
    by_cases hp : p.1 == k
    · simp only [jget, hp, if_pos, Option.some.injEq] at h
      simp [jupdate, jset, hp, h]
    · simp only [jget, hp, Bool.false_eq_true, if_false] at h
      simp [jupdate, jset, hp, ih h]

theorem jdel_jset (m : JMap α β) (k : α) (v : β) :
    jdel (jset m k v) k = jdel m k := by
  induction m with
  | nil => simp [jset, jdel]
  | cons p rest ih =>
    by_cases hp : p.1 == k
    · simp [jset, jdel, List.filter, hp]
    · simp only [jset, hp, Bool.false_eq_true, if_false]
      simp only [jdel, List.filter, hp, Bool.not_false] at ih ⊢
      rw [ih]

theorem jdel_not_has (m : JMap α β) {k : α} (h : jget m k = none) :
    jdel m k = m := by
  induction m with
  | nil => rfl
  | cons p rest ih =>
    by_cases hp : p.1 == k
    · simp [jget, hp] at h
    · simp only [jget, hp, Bool.false_eq_true, if_false] at h
      have hrest : List.filter (fun p => !(p.1 == k)) rest = rest := by
        simpa [jdel] using ih h
      simp [jdel, List.filter, hp, hrest]

theorem jget_mem (m : JMap α β) {k : α} {v : β} (h : jget m k = some v) :
    (k, v) ∈ m := by
  induction m with
  | nil => simp [jget] at h
  | cons p rest ih =>
    by_cases hp : p.1 == k
    · have hpk : p.1 = k := by simpa using hp
      simp only [jget, hp, if_pos, Option.some.injEq] at h
      have hpe : p = (k, v) := by
        cases p
        simp only [Prod.mk.injEq]
        exact ⟨hpk, h⟩
      rw [← hpe]
      exact List.mem_cons_self p rest
    · simp only [jget, hp, Bool.false_eq_true, if_false] at h
      exact List.mem_cons_of_mem _ (ih h)

theorem jset_ne_nil (m : JMap α β) (k : α) (v : β) : jset m k v ≠ [] := by
  cases m with
  | nil => simp [jset]
  | cons p rest =>
    by_cases hp : p.1 == k <;> simp [jset, hp]

theorem mem_sadd_self (rs : List α) (x : α) : x ∈ sadd rs x := by
  by_cases h : x ∈ rs <;> simp [sadd, h]

theorem mem_sadd_of_mem (rs : List α) {x y : α} (h : y ∈ rs) : y ∈ sadd rs x := by
  by_cases hc : x ∈ rs <;> simp [sadd, hc, h]

theorem not_mem_sdel_self (rs : List α) (x : α) : x ∉ sdel rs x := by
  simp [sdel]

theorem mem_sdel_of_ne (rs : List α) {x y : α} (h : y ∈ rs) (hne : y ≠ x) :
    y ∈ sdel rs x := by
  simp [sdel, h, hne]

end JMapModel

/-!
Embedding of src/core/room/RoomManager.ts.  A RoomUser is the membership
snapshot stored in a room's user map; a Room holds its id and the map
socketId to RoomUser; the manager holds the room table and the reverse
map socketId to set of roomIds.  Date-valued fields are embedded as Nat
clock readings.
-/

structure RoomUser where
  socketId : String
  userId : String
  username : String
  joinedAt : Nat
  deriving Repr, DecidableEq

structure Room where
  id : String
  users : JMap String RoomUser
  createdAt : Nat
  deriving Repr, DecidableEq

structure RoomManagerState where
  rooms : JMap String Room
  socketToRooms : JMap String (List String)
  deriving Repr, DecidableEq

/-- Initial RoomManager state: both maps empty. -/
def initRM : RoomManagerState := { rooms := [], socketToRooms := [] }

/-- RoomManager.createRoom: no-op if present, else insert an empty room. -/
def createRoom (roomId : String) (now : Nat) (s : RoomManagerState) :
    RoomManagerState :=
  if jhas s.rooms roomId then s
  else { s with rooms := jset s.rooms roomId { id := roomId, users := [], createdAt := now } }

/-- RoomManager.joinRoom: lazily create the room, insert the member entry
keyed by user.socketId, and add roomId to the connection's room-set. -/
def joinRoom (roomId : String) (user : RoomUser) (now : Nat)
    (s : RoomManagerState) : RoomManagerState :=
  let s1 := if jhas s.rooms roomId then s else createRoom roomId now s
  let s2 := { s1 with
    rooms := jupdate s1.rooms roomId
      (fun room => { room with users := jset room.users user.socketId user }) }
  let str1 := if jhas s2.socketToRooms user.socketId then s2.socketToRooms
              else jset s2.socketToRooms user.socketId []
  { s2 with socketToRooms := jupdate str1 user.socketId (fun rs => sadd rs roomId) }

/-- RoomManager.leaveRoom: drop the member entry, delete the room if it
became empty, and unconditionally drop roomId from the room-set. -/
def leaveRoom (roomId : String) (socketId : String) (s : RoomManagerState) :
    RoomManagerState :=
  let s1 :=
    match jget s.rooms roomId with
    | none => s
    | some room =>
      let users1 := jdel room.users socketId
      if users1.length == 0 then { s with rooms := jdel s.rooms roomId }
      else { s with rooms := jupdate s.rooms roomId (fun r => { r with users := users1 }) }
  { s1 with socketToRooms := jupdate s1.socketToRooms socketId (fun rs => sdel rs roomId) }

/-- RoomManager.leaveAllRooms: leave each room of the connection's room-set,
then delete the room-set entry. -/
def leaveAllRooms (socketId : String) (s : RoomManagerState) : RoomManagerState :=
  match jget s.socketToRooms socketId with
  | none => s
  | some rs =>
    let s1 := rs.foldl (fun st roomId => leaveRoom roomId socketId st) s
    { s1 with socketToRooms := jdel s1.socketToRooms socketId }

/-- RoomManager.getRoomUsers. -/
def getRoomUsers (roomId : String) (s : RoomManagerState) : List RoomUser :=
  match jget s.rooms roomId with
  | none => []
  | some room => jvalues room.users

/-- RoomManager.getUserRooms. -/
def getUserRooms (socketId : String) (s : RoomManagerState) : List String :=
  (jget s.socketToRooms socketId).getD []

/-- RoomManager.roomExists. -/
def roomExists (roomId : String) (s : RoomManagerState) : Bool :=
  jhas s.rooms roomId

/-- RoomManager.isUserInRoom. -/
def isUserInRoom (roomId : String) (socketId : String) (s : RoomManagerState) :
    Bool :=
  match jget s.rooms roomId with
  | none => false
  | some room => jhas room.users socketId

/-- One RoomManager mutating operation, for reachability statements. -/
inductive RMOp where
  | create (roomId : String) (now : Nat)
  | join (roomId : String) (user : RoomUser) (now : Nat)
  | leave (roomId : String) (socketId : String)
  | leaveAll (socketId : String)
  deriving Repr

/-- Apply one RoomManager operation. -/
def applyRMOp (s : RoomManagerState) : RMOp → RoomManagerState
  | .create rid now => createRoom rid now s
  | .join rid u now => joinRoom rid u now s
  | .leave rid sid => leaveRoom rid sid s
  | .leaveAll sid => leaveAllRooms sid s

/-- States reachable from the empty RoomManager by any operation sequence. -/
def RMReachable (s : RoomManagerState) : Prop :=
  ∃ ops : List RMOp, s = ops.foldl applyRMOp initRM

/-- Invariant of claim C1: a room is present iff its member list is non-empty. -/
def RoomTableIffNonempty (s : RoomManagerState) : Prop :=
  ∀ roomId, roomExists roomId s = true ↔ getRoomUsers roomId s ≠ []

/-!
Claim C1.  The invariant "a room is present in the table iff its member
count is positive" is analysed through the equivalent internal statement
that every stored room has a non-empty user map.
-/

/-- Internal form of the C1 invariant: every stored room is non-empty. -/
def RoomNE (s : RoomManagerState) : Prop :=
  ∀ roomId room, jget s.rooms roomId = some room → room.users ≠ []

theorem roomExists_of_users_ne_nil (s : RoomManagerState) (roomId : String)
    (h : getRoomUsers roomId s ≠ []) : roomExists roomId s = true := by
  unfold getRoomUsers at h
  unfold roomExists jhas
  cases hq : jget s.rooms roomId with
  | none => rw [hq] at h; simp at h
  | some room => simp

theorem roomNE_iff (s : RoomManagerState) :
    RoomNE s ↔ RoomTableIffNonempty s := by
  constructor
  · intro h roomId
    constructor
    · intro hex
      unfold roomExists jhas at hex
      cases hq : jget s.rooms roomId with
      | none => rw [hq] at hex; simp at hex
      | some room =>
        have := h roomId room hq
        unfold getRoomUsers
        rw [hq]
        simpa [jvalues] using this
    · exact roomExists_of_users_ne_nil s roomId
  · intro h roomId room hq
    have hex : roomExists roomId s = true := by
      unfold roomExists jhas
      rw [hq]
      rfl
    have := (h roomId).1 hex
    unfold getRoomUsers at this
    rw [hq] at this
    simpa [jvalues] using this

theorem roomNE_joinRoom (s : RoomManagerState) (roomId : String)
    (user : RoomUser) (now : Nat) (h : RoomNE s) :
    RoomNE (joinRoom roomId user now s) := by
  intro rid room hq
  unfold joinRoom at hq
  simp only at hq
  by_cases hr : rid = roomId
  · subst hr
    rw [jget_jupdate_self] at hq
    cases hg : jget (if jhas s.rooms rid then s else createRoom rid now s).rooms rid with
    | none => rw [hg] at hq; simp at hq
    | some room0 =>
      rw [hg] at hq
      simp only [Option.map_some', Option.some.injEq] at hq
      rw [← hq]
      exact jset_ne_nil _ _ _
  · rw [jget_jupdate_ne _ _ (fun he => hr he.symm)] at hq
    by_cases hhas : jhas s.rooms roomId
    · rw [if_pos hhas] at hq
      exact h rid room hq
    · rw [if_neg hhas] at hq
      unfold createRoom at hq
      rw [if_neg hhas] at hq
      rw [jget_jset_ne _ _ (fun he => hr he.symm)] at hq
      exact h rid room hq

theorem roomNE_leaveRoom (s : RoomManagerState) (roomId socketId : String)
    (h : RoomNE s) : RoomNE (leaveRoom roomId socketId s) := by
  intro rid room hq
  unfold leaveRoom at hq
  simp only at hq
  cases hg : jget s.rooms roomId with
  | none =>
    rw [hg] at hq
    exact h rid room hq
  | some room0 =>
    rw [hg] at hq
    simp only at hq
    by_cases hlen : (jdel room0.users socketId).length == 0
    · rw [if_pos hlen] at hq
      simp only at hq
      by_cases hr : rid = roomId
      · subst hr
        rw [jget_jdel_self] at hq
        simp at hq
      · rw [jget_jdel_ne _ (fun he => hr he.symm)] at hq
        exact h rid room hq
    · rw [if_neg hlen] at hq
      simp only at hq
      by_cases hr : rid = roomId
      · subst hr
        rw [jget_jupdate_self, hg] at hq
        simp only [Option.map_some', Option.some.injEq] at hq
        rw [← hq]
        simp only [ne_eq]
        intro hnil
        rw [hnil] at hlen
        simp at hlen
      · rw [jget_jupdate_ne _ _ (fun he => hr he.symm)] at hq
        exact h rid room hq

theorem roomNE_leaveAllRooms (s : RoomManagerState) (socketId : String)
    (h : RoomNE s) : RoomNE (leaveAllRooms socketId s) := by
  unfold leaveAllRooms
  cases hg : jget s.socketToRooms socketId with
  | none => exact h
  | some rs =>
    simp only
    have hfold : ∀ (l : List String) (st : RoomManagerState), RoomNE st →
        RoomNE (l.foldl (fun st roomId => leaveRoom roomId socketId st) st) := by
      intro l
      induction l with
      | nil => intro st hst; exact hst
      | cons a as ih =>
        intro st hst
        exact ih _ (roomNE_leaveRoom st a socketId hst)
    exact hfold rs s h

/-- C1 is violated by createRoom: on a fresh room id it inserts an empty
room, so the room is present in the table with member count 0. -/
theorem createRoom_breaks_room_table_iff :
    roomExists "r" (createRoom "r" 0 initRM) = true ∧
    getRoomUsers "r" (createRoom "r" 0 initRM) = [] := by
  constructor <;> rfl

/-- C1 (amended): the room-present-iff-nonempty invariant is preserved by
joinRoom, leaveRoom and leaveAllRooms (though not by createRoom, which
inserts an empty room when the room id is absent). -/
theorem room_table_iff_nonempty_preserved (s : RoomManagerState)
    (h : RoomTableIffNonempty s) :
    (∀ roomId user now, RoomTableIffNonempty (joinRoom roomId user now s)) ∧
    (∀ roomId socketId, RoomTableIffNonempty (leaveRoom roomId socketId s)) ∧
    (∀ socketId, RoomTableIffNonempty (leaveAllRooms socketId s)) := by
  have hne : RoomNE s := (roomNE_iff s).2 h
  refine ⟨?_, ?_, ?_⟩
  · intro roomId user now
    exact (roomNE_iff _).1 (roomNE_joinRoom s roomId user now hne)
  · intro roomId socketId
    exact (roomNE_iff _).1 (roomNE_leaveRoom s roomId socketId hne)
  · intro socketId
    exact (roomNE_iff _).1 (roomNE_leaveAllRooms s socketId hne)

/-- Example member used to instantiate witnesses. -/
def aliceEx : RoomUser :=
  { socketId := "sA", userId := "uA", username := "alice", joinedAt := 0 }

/-- Example member used to instantiate witnesses. -/
def bobEx : RoomUser :=
  { socketId := "sB", userId := "uB", username := "bob", joinedAt := 1 }

/-- Witness for the amended C1: the empty registry satisfies the invariant,
and after a concrete joinRoom the room "r" is present iff non-empty. -/
theorem room_table_iff_nonempty_witness :
    roomExists "r" (joinRoom "r" aliceEx 0 initRM) = true ↔
    getRoomUsers "r" (joinRoom "r" aliceEx 0 initRM) ≠ [] := by
  have hinit : RoomTableIffNonempty initRM := by
    intro roomId
    simp [roomExists, getRoomUsers, jhas, jget, initRM]
  exact (room_table_iff_nonempty_preserved initRM hinit).1 "r" aliceEx 0 "r"

/-!
Embedding of the ConnectionManager (socketId to userId bidirectional index)
from src/core/server/WebSocketServer.ts.
-/

structure ConnectionManagerState where
  socketToUser : JMap String String
  userToSockets : JMap String (List String)
  deriving Repr, DecidableEq

/-- Initial ConnectionManager state: both maps empty. -/
def initCM : ConnectionManagerState := { socketToUser := [], userToSockets := [] }

/-- ConnectionManager.addConnection. -/
def addConnection (socketId userId : String) (s : ConnectionManagerState) :
    ConnectionManagerState :=
  let stu := jset s.socketToUser socketId userId
  let uts1 := if jhas s.userToSockets userId then s.userToSockets
              else jset s.userToSockets userId []
  { socketToUser := stu,
    userToSockets := jupdate uts1 userId (fun rs => sadd rs socketId) }

/-- ConnectionManager.removeConnection. -/
def removeConnection (socketId : String) (s : ConnectionManagerState) :
    ConnectionManagerState :=
  let s1 :=
    match jget s.socketToUser socketId with
    | none => s
    | some userId =>
      let uts1 := jupdate s.userToSockets userId (fun rs => sdel rs socketId)
      let uts2 := if (jget uts1 userId).getD [] == ([] : List String)
                  then jdel uts1 userId else uts1
      { s with userToSockets := uts2 }
  { s1 with socketToUser := jdel s1.socketToUser socketId }

/-- ConnectionManager.getConnectionsByUser. -/
def getConnectionsByUser (userId : String) (s : ConnectionManagerState) :
    List String :=
  (jget s.userToSockets userId).getD []

/-- ConnectionManager.getUserBySocket. -/
def getUserBySocket (socketId : String) (s : ConnectionManagerState) :
    Option String :=
  jget s.socketToUser socketId

/-- Ensure-then-read: the source pattern "if absent, set a default, then get". -/
theorem jget_ensure {α β : Type} [BEq α] [LawfulBEq α] (m : JMap α β) (k : α) (v : β) :
    ∃ w, jget (if jhas m k then m else jset m k v) k = some w := by
  by_cases hh : jhas m k
  · rw [if_pos hh]
    unfold jhas at hh
    cases hg : jget m k with
    | none => rw [hg] at hh; simp at hh
    | some w => exact ⟨w, rfl⟩
  · rw [if_neg hh]
    exact ⟨v, jget_jset_self m k v⟩

theorem getUserBySocket_addConnection (cm : ConnectionManagerState)
    (sid uid : String) :
    getUserBySocket sid (addConnection sid uid cm) = some uid := by
  unfold getUserBySocket addConnection
  simp only
  exact jget_jset_self _ _ _

theorem mem_getConnectionsByUser_addConnection (cm : ConnectionManagerState)
    (sid uid : String) :
    sid ∈ getConnectionsByUser uid (addConnection sid uid cm) := by
  unfold getConnectionsByUser addConnection
  simp only
  rw [jget_jupdate_self]
  obtain ⟨w, hw⟩ := jget_ensure cm.userToSockets uid ([] : List String)
  rw [hw]
  simp only [Option.map_some', Option.getD_some]
  exact mem_sadd_self w sid

theorem getConnectionsByUser_addConnection_other (cm : ConnectionManagerState)
    (sid uid uid2 : String) (h : uid2 ≠ uid) :
    getConnectionsByUser uid2 (addConnection sid uid cm) =
    getConnectionsByUser uid2 cm := by
  unfold getConnectionsByUser addConnection
  simp only
  rw [jget_jupdate_ne _ _ (fun he => h he.symm)]
  by_cases hh : jhas cm.userToSockets uid
  · rw [if_pos hh]
  · rw [if_neg hh, jget_jset_ne _ _ (fun he => h he.symm)]

/-- C10: rebinding a socket id to a new user leaves the old user's
connection-set stale: after addConnection(s, u1) then addConnection(s, u2),
getUserBySocket resolves to u2 and both connection-sets contain s. -/
theorem addConnection_rebind_stale (cm : ConnectionManagerState)
    (sid u1 u2 : String) (h : u1 ≠ u2) :
    getUserBySocket sid (addConnection sid u2 (addConnection sid u1 cm)) = some u2 ∧
    sid ∈ getConnectionsByUser u2 (addConnection sid u2 (addConnection sid u1 cm)) ∧
    sid ∈ getConnectionsByUser u1 (addConnection sid u2 (addConnection sid u1 cm)) := by
  refine ⟨getUserBySocket_addConnection _ sid u2,
    mem_getConnectionsByUser_addConnection _ sid u2, ?_⟩
  rw [getConnectionsByUser_addConnection_other _ sid u2 u1 h]
  exact mem_getConnectionsByUser_addConnection cm sid u1

/-- Witness for C10 at concrete inputs. -/
theorem addConnection_rebind_stale_witness :
    getUserBySocket "s1" (addConnection "s1" "u2" (addConnection "s1" "u1" initCM)) = some "u2" ∧
    "s1" ∈ getConnectionsByUser "u2" (addConnection "s1" "u2" (addConnection "s1" "u1" initCM)) ∧
    "s1" ∈ getConnectionsByUser "u1" (addConnection "s1" "u2" (addConnection "s1" "u1" initCM)) :=
  addConnection_rebind_stale initCM "s1" "u1" "u2" (by decide)

/-!
Embedding of the ReactionManager (messageId to emoji to reaction list)
from src/core/server/WebSocketServer.ts, and of the toggle policy applied
by MessageReactionHandler.execute.
-/

structure Reaction where
  userId : String
  username : String
  emoji : String
  timestamp : Nat
  deriving Repr, DecidableEq

/-- ReactionManager state: messageId to (emoji to ordered reaction list). -/
abbrev ReactionState := JMap String (JMap String (List Reaction))

/-- Initial ReactionManager state. -/
def initRS : ReactionState := []

/-- ReactionManager.addReaction: create missing structure, then append the
record unless the user already reacted with that emoji. -/
def addReaction (st : ReactionState) (messageId : String) (r : Reaction) :
    ReactionState :=
  let st1 := if jhas st messageId then st else jset st messageId []
  jupdate st1 messageId (fun inner =>
    let inner1 := if jhas inner r.emoji then inner else jset inner r.emoji []
    jupdate inner1 r.emoji (fun lst =>
      if lst.any (fun q => q.userId == r.userId) then lst else lst ++ [r]))

/-- ReactionManager.removeReaction: splice out the matching record if
present, deleting the emoji bucket when it empties and the message entry
when no bucket remains. -/
def removeReaction (st : ReactionState) (messageId userId emoji : String) :
    ReactionState :=
  match jget st messageId with
  | none => st
  | some inner =>
    match jget inner emoji with
    | none => st
    | some lst =>
      if lst.any (fun q => q.userId == userId) then
        let lst1 := lst.eraseP (fun q => q.userId == userId)
        let inner1 := jupdate inner emoji (fun _ => lst1)
        let inner2 := if lst1.isEmpty then jdel inner1 emoji else inner1
        let st1 := jupdate st messageId (fun _ => inner2)
        if inner2.isEmpty then jdel st1 messageId else st1
      else st

/-- ReactionManager.getReactions. -/
def getReactions (st : ReactionState) (messageId : String) :
    JMap String (List Reaction) :=
  (jget st messageId).getD []

/-- ReactionManager.hasUserReacted. -/
def hasUserReacted (st : ReactionState) (messageId userId emoji : String) :
    Bool :=
  match jget st messageId with
  | none => false
  | some inner =>
    match jget inner emoji with
    | none => false
    | some lst => lst.any (fun q => q.userId == userId)

/-- Emoji bucket of a message, read through both map levels. -/
def jget2 (st : ReactionState) (messageId emoji : String) :
    Option (List Reaction) :=
  (jget st messageId).bind (fun inner => jget inner emoji)

/-- Toggle policy of MessageReactionHandler.execute: remove if the user has
reacted with this emoji, else add a fresh record. -/
def toggleReaction (st : ReactionState) (messageId userId username emoji : String)
    (now : Nat) : ReactionState :=
  if hasUserReacted st messageId userId emoji then
    removeReaction st messageId userId emoji
  else
    addReaction st messageId
      { userId := userId, username := username, emoji := emoji, timestamp := now }

/-- One ReactionManager mutating operation, for reachability statements. -/
inductive ROp where
  | add (messageId : String) (r : Reaction)
  | remove (messageId userId emoji : String)
  deriving Repr

/-- Apply one ReactionManager operation. -/
def applyROp (st : ReactionState) : ROp → ReactionState
  | .add mid r => addReaction st mid r
  | .remove mid uid e => removeReaction st mid uid e

/-- Reaction states reachable from empty by add/remove sequences. -/
def RReachable (st : ReactionState) : Prop :=
  ∃ ops : List ROp, st = ops.foldl applyROp initRS

/-- Structural invariant of the reaction index: every stored message entry
is non-empty with distinct emoji keys, and every stored bucket is non-empty,
has at most one record per userId, and only holds records of its own emoji. -/
def RInv (st : ReactionState) : Prop :=
  ∀ mid inner, jget st mid = some inner →
    inner ≠ [] ∧ (inner.map Prod.fst).Nodup ∧
    ∀ e lst, jget inner e = some lst →
      lst ≠ [] ∧ List.Pairwise (fun a b => a.userId ≠ b.userId) lst ∧
      ∀ r ∈ lst, r.emoji = e

theorem hasUserReacted_eq (st : ReactionState) (mid uid e : String) :
    hasUserReacted st mid uid e =
      ((jget2 st mid e).getD []).any (fun q => q.userId == uid) := by
  unfold hasUserReacted jget2
  cases jget st mid with
  | none => rfl
  | some inner =>
    simp only [Option.some_bind]
    cases jget inner e with
    | none => rfl
    | some lst => rfl

theorem jupdate_ne_nil {α β : Type} [BEq α] (m : JMap α β) (k : α) (f : β → β)
    (h : m ≠ []) : jupdate m k f ≠ [] := by
  cases m with
  | nil => exact absurd rfl h
  | cons p rest =>
    by_cases hp : p.1 == k <;> simp [jupdate, hp]

theorem any_false_iff {α : Type} (l : List α) (p : α → Bool) :
    l.any p = false ↔ ∀ x ∈ l, p x = false := by
  constructor
  · intro h x hx
    cases hp : p x with
    | false => rfl
    | true =>
      have : l.any p = true := List.any_eq_true.2 ⟨x, hx, hp⟩
      rw [h] at this
      exact absurd this (by simp)
  · intro h
    cases ha : l.any p with
    | false => rfl
    | true =>
      obtain ⟨x, hx, hp⟩ := List.any_eq_true.1 ha
      rw [h x hx] at hp
      exact absurd hp (by simp)

theorem isEmpty_false_of_ne_nil {α : Type} {l : List α} (h : l ≠ []) :
    l.isEmpty = false := by
  cases l with
  | nil => exact absurd rfl h
  | cons a as => rfl

/-- After eraseP on a list whose userIds are pairwise distinct, no record
with the erased userId remains. -/
theorem eraseP_userId_gone (lst : List Reaction) (uid : String)
    (hpw : List.Pairwise (fun a b => a.userId ≠ b.userId) lst) :
    ∀ q ∈ lst.eraseP (fun q => q.userId == uid), (q.userId == uid) = false := by
  induction lst with
  | nil => intro q hq; simp [List.eraseP] at hq
  | cons a as ih =>
    intro q hq
    by_cases ha : (a.userId == uid) = true
    · rw [show List.eraseP (fun q => q.userId == uid) (a :: as) = as from List.eraseP_cons_of_pos ha] at hq
      have hane : ∀ b ∈ as, a.userId ≠ b.userId := fun b hb => List.rel_of_pairwise_cons hpw hb
      have : q.userId ≠ uid := by
        have hau : a.userId = uid := by simpa using ha
        intro hqu
        exact hane q hq (by rw [hau, hqu])
      simpa using this
    · rw [show List.eraseP (fun q => q.userId == uid) (a :: as) = a :: List.eraseP (fun q => q.userId == uid) as from List.eraseP_cons_of_neg (by simpa using ha)] at hq
      rcases List.mem_cons.1 hq with hqa | hqas
      · rw [hqa]
        simpa using ha
      · exact ih (List.Pairwise.of_cons hpw) q hqas

/-- Effect of addReaction on the bucket it targets: if the user already
reacted the bucket is unchanged, otherwise the fresh record is appended. -/
theorem jget2_addReaction (st : ReactionState) (mid : String) (r : Reaction) :
    jget2 (addReaction st mid r) mid r.emoji =
      some (if ((jget2 st mid r.emoji).getD []).any (fun q => q.userId == r.userId)
            then (jget2 st mid r.emoji).getD []
            else (jget2 st mid r.emoji).getD [] ++ [r]) := by
  unfold addReaction jget2
  by_cases hm : jhas st mid
  · obtain ⟨inner, hmg⟩ : ∃ inner, jget st mid = some inner := by
      unfold jhas at hm
      cases hg : jget st mid with
      | none => rw [hg] at hm; simp at hm
      | some inner => exact ⟨inner, rfl⟩
    rw [if_pos hm, jget_jupdate_self, hmg]
    simp only [Option.map_some', Option.some_bind]
    by_cases he : jhas inner r.emoji
    · obtain ⟨lst, heg⟩ : ∃ lst, jget inner r.emoji = some lst := by
        unfold jhas at he
        cases hg : jget inner r.emoji with
        | none => rw [hg] at he; simp at he
        | some lst => exact ⟨lst, rfl⟩
      rw [if_pos he, jget_jupdate_self, heg]
      simp only [Option.map_some', Option.getD_some]
    · have heg : jget inner r.emoji = none := by
        unfold jhas at he
        cases hg : jget inner r.emoji with
        | none => rfl
        | some lst => rw [hg] at he; simp at he
      rw [if_neg he, jupdate_jset, jget_jset_self, heg]
      simp
  · have hmg : jget st mid = none := by
      unfold jhas at hm
      cases hg : jget st mid with
      | none => rfl
      | some inner => rw [hg] at hm; simp at hm
    rw [if_neg hm, jupdate_jset, jget_jset_self, hmg]
    simp only [Option.none_bind, Option.getD_none, List.any_nil,
      Bool.false_eq_true, if_false, List.nil_append, Option.some_bind]
    have : jhas ([] : JMap String (List Reaction)) r.emoji = false := rfl
    rw [this]
    simp only [Bool.false_eq_true, if_false]
    rw [jupdate_jset, jget_jset_self]
    simp

/-- Unfolding of hasUserReacted at a stored message and bucket. -/
theorem hasUserReacted_some (st : ReactionState) {mid uid e : String}
    {inner : JMap String (List Reaction)} {lst : List Reaction}
    (hmg : jget st mid = some inner) (heg : jget inner e = some lst) :
    hasUserReacted st mid uid e = lst.any (fun q => q.userId == uid) := by
  unfold hasUserReacted
  rw [hmg]
  simp only
  rw [heg]

/-- Toggling a reaction off exactly undoes toggling it on: removeReaction
after addReaction of the same (messageId, emoji, userId) restores the
aggregator state, including garbage collection of structure the add had
created. -/
theorem removeReaction_addReaction (st : ReactionState) (mid uid e : String)
    (r : Reaction) (hru : r.userId = uid) (hre : r.emoji = e)
    (hinv : RInv st) (h : hasUserReacted st mid uid e = false) :
    removeReaction (addReaction st mid r) mid uid e = st := by
  have hrsingle : List.eraseP (fun q => q.userId == uid) [r] = [] := by
    rw [show ([r] : List Reaction) = r :: [] from rfl]
    rw [List.eraseP_cons_of_pos (by simp [hru])]
  by_cases hm : jhas st mid
  · obtain ⟨inner, hmg⟩ : ∃ inner, jget st mid = some inner := by
      unfold jhas at hm
      cases hg : jget st mid with
      | none => rw [hg] at hm; simp at hm
      | some inner => exact ⟨inner, rfl⟩
    have hne_inner : inner ≠ [] := (hinv mid inner hmg).1
    unfold addReaction
    rw [if_pos hm, jupdate_get _ _ hmg]
    simp only [hru, hre]
    by_cases he : jhas inner e
    · obtain ⟨lst, heg⟩ : ∃ lst, jget inner e = some lst := by
        unfold jhas at he
        cases hg : jget inner e with
        | none => rw [hg] at he; simp at he
        | some lst => exact ⟨lst, rfl⟩
      have hlstne : lst ≠ [] := ((hinv mid inner hmg).2.2 e lst heg).1
      have hany : lst.any (fun q => q.userId == uid) = false := by
        rw [hasUserReacted_some st hmg heg] at h
        exact h
      rw [if_pos he, jupdate_get _ _ heg, hany]
      simp only [Bool.false_eq_true, if_false]
      unfold removeReaction
      simp only [jget_jset_self]
      rw [if_pos (by simp [hru])]
      have herase : (lst ++ [r]).eraseP (fun q => q.userId == uid) = lst := by
        rw [List.eraseP_append_right _ (List.any_eq_false.1 hany), hrsingle,
          List.append_nil]
      rw [herase]
      simp only [jupdate_jset]
      rw [jset_get_self _ heg, isEmpty_false_of_ne_nil hlstne]
      simp only [Bool.false_eq_true, if_false]
      rw [jset_get_self _ hmg, isEmpty_false_of_ne_nil hne_inner]
      simp only [Bool.false_eq_true, if_false]
    · have heg : jget inner e = none := by
        unfold jhas at he
        cases hg : jget inner e with
        | none => rfl
        | some lst => rw [hg] at he; simp at he
      rw [if_neg he]
      simp only [jupdate_jset, List.any_nil, Bool.false_eq_true, if_false,
        List.nil_append]
      unfold removeReaction
      simp only [jget_jset_self]
      rw [if_pos (by simp [hru])]
      rw [hrsingle]
      simp only [List.isEmpty_nil, if_true, jupdate_jset, jdel_jset]
      rw [jdel_not_has _ heg]
      rw [jset_get_self _ hmg, isEmpty_false_of_ne_nil hne_inner]
      simp only [Bool.false_eq_true, if_false]
  · have hmg : jget st mid = none := by
      unfold jhas at hm
      cases hg : jget st mid with
      | none => rfl
      | some inner => rw [hg] at hm; simp at hm
    unfold addReaction
    rw [if_neg hm]
    simp only [jupdate_jset, hru, hre]
    rw [show jhas ([] : JMap String (List Reaction)) e = false from rfl]
    simp only [Bool.false_eq_true, if_false]
    rw [show jset ([] : JMap String (List Reaction)) e [] = [(e, [])] from rfl]
    rw [show jupdate [(e, ([] : List Reaction))] e
          (fun lst => if (lst.any fun q => q.userId == uid) = true then lst
                      else lst ++ [r])
        = [(e, [r])] from by simp [jupdate]]
    unfold removeReaction
    simp only [jget_jset_self]
    rw [show jget [(e, [r])] e = some [r] from by simp [jget]]
    simp only
    rw [if_pos (by simp [hru])]
    rw [hrsingle]
    simp only [List.isEmpty_nil, if_true]
    rw [show jupdate [(e, [r])] e (fun _ => ([] : List Reaction)) = [(e, [])] from by
      simp [jupdate]]
    rw [show jdel [(e, ([] : List Reaction))] e = [] from by simp [jdel]]
    simp only [List.isEmpty_nil, if_true, jupdate_jset]
    rw [jdel_jset, jdel_not_has _ hmg]

/-- Elimination form of a positive hasUserReacted query. -/
theorem hasUserReacted_true_elim {st : ReactionState} {mid uid e : String}
    (ht : hasUserReacted st mid uid e = true) :
    ∃ inner lst, jget st mid = some inner ∧ jget inner e = some lst ∧
      lst.any (fun q => q.userId == uid) = true := by
  unfold hasUserReacted at ht
  cases hmg : jget st mid with
  | none => rw [hmg] at ht; simp at ht
  | some inner =>
    rw [hmg] at ht
    simp only at ht
    cases heg : jget inner e with
    | none => rw [heg] at ht; simp at ht
    | some lst =>
      rw [heg] at ht
      exact ⟨inner, lst, rfl, heg, ht⟩

/-- Effect of removeReaction on the bucket it targets when the record is
present: the first matching record is spliced out, and afterwards the user
no longer counts as having reacted. -/
theorem removeReaction_effect (st : ReactionState) (mid uid e : String)
    (hinv : RInv st) (ht : hasUserReacted st mid uid e = true) :
    (jget2 (removeReaction st mid uid e) mid e).getD [] =
      ((jget2 st mid e).getD []).eraseP (fun q => q.userId == uid) ∧
    hasUserReacted (removeReaction st mid uid e) mid uid e = false := by
  obtain ⟨inner, lst, hmg, heg, hany⟩ := hasUserReacted_true_elim ht
  have hne_inner : inner ≠ [] := (hinv mid inner hmg).1
  have hpw : List.Pairwise (fun a b => a.userId ≠ b.userId) lst :=
    ((hinv mid inner hmg).2.2 e lst heg).2.1
  have hgone := eraseP_userId_gone lst uid hpw
  have hbucket : (jget2 st mid e).getD [] = lst := by
    unfold jget2
    rw [hmg, Option.some_bind, heg, Option.getD_some]
  have hmain :
      (jget2 (removeReaction st mid uid e) mid e).getD [] =
        lst.eraseP (fun q => q.userId == uid) := by
    unfold removeReaction
    simp only [hmg]
    simp only [heg]
    rw [if_pos hany]
    by_cases hemp : (lst.eraseP (fun q => q.userId == uid)).isEmpty
    · have hl1 : lst.eraseP (fun q => q.userId == uid) = [] :=
        List.isEmpty_iff.1 hemp
      rw [hl1]
      simp only [List.isEmpty_nil, if_true]
      by_cases hinner2 : (jdel (jupdate inner e (fun _ => ([] : List Reaction))) e).isEmpty
      · rw [if_pos hinner2]
        unfold jget2
        rw [jget_jdel_self]
        simp
      · rw [if_neg hinner2]
        unfold jget2
        rw [jget_jupdate_self, hmg]
        simp only [Option.map_some', Option.some_bind]
        rw [jget_jdel_self]
        simp
    · have hl1ne : lst.eraseP (fun q => q.userId == uid) ≠ [] := by
        intro hc
        rw [hc] at hemp
        exact hemp rfl
      rw [isEmpty_false_of_ne_nil hl1ne]
      simp only [Bool.false_eq_true, if_false]
      rw [isEmpty_false_of_ne_nil (jupdate_ne_nil inner e _ hne_inner)]
      simp only [Bool.false_eq_true, if_false]
      unfold jget2
      rw [jget_jupdate_self, hmg]
      simp only [Option.map_some', Option.some_bind]
      rw [jget_jupdate_self, heg]
      simp
  refine ⟨by rw [hmain, hbucket], ?_⟩
  rw [hasUserReacted_eq, hmain]
  exact (any_false_iff _ _).2 hgone

theorem keys_jupdate {α β : Type} [BEq α] [LawfulBEq α] (m : JMap α β) (k : α)
    (f : β → β) : (jupdate m k f).map Prod.fst = m.map Prod.fst := by
  induction m with
  | nil => rfl
  | cons p rest ih =>
    by_cases hp : p.1 == k
    · have hpk : p.1 = k := by simpa using hp
      simp [jupdate, hp, hpk]
    · simp [jupdate, hp, ih]

theorem jset_append_of_none {α β : Type} [BEq α] (m : JMap α β) {k : α} (v : β)
    (h : jget m k = none) : jset m k v = m ++ [(k, v)] := by
  induction m with
  | nil => rfl
  | cons p rest ih =>
    by_cases hp : p.1 == k
    · simp [jget, hp] at h
    · simp only [jget, hp, Bool.false_eq_true, if_false] at h
      simp [jset, hp, ih h]

theorem not_mem_keys_of_jget_none {α β : Type} [BEq α] [LawfulBEq α]
    (m : JMap α β) {k : α} (h : jget m k = none) : k ∉ m.map Prod.fst := by
  induction m with
  | nil => simp
  | cons p rest ih =>
    by_cases hp : p.1 == k
    · simp [jget, hp] at h
    · simp only [jget, hp, Bool.false_eq_true, if_false] at h
      simp only [List.map_cons, List.mem_cons]
      rintro (hk | hk)
      · rw [hk] at hp
        simp at hp
      · exact ih h hk

theorem rinv_addReaction (st : ReactionState) (mid0 : String) (r : Reaction)
    (hinv : RInv st) : RInv (addReaction st mid0 r) := by
  intro mid inner' hq
  unfold addReaction at hq
  by_cases hm0 : jhas st mid0
  · rw [if_pos hm0] at hq
    obtain ⟨inner0, hmg0⟩ : ∃ i, jget st mid0 = some i := by
      unfold jhas at hm0
      cases hg : jget st mid0 with
      | none => rw [hg] at hm0; simp at hm0
      | some i => exact ⟨i, rfl⟩
    have hfacts := hinv mid0 inner0 hmg0
    by_cases hmid : mid0 = mid
    · subst hmid
      rw [jget_jupdate_self, hmg0] at hq
      simp only [Option.map_some', Option.some.injEq] at hq
      by_cases he : jhas inner0 r.emoji
      · obtain ⟨lst0, heg0⟩ : ∃ l, jget inner0 r.emoji = some l := by
          unfold jhas at he
          cases hg : jget inner0 r.emoji with
          | none => rw [hg] at he; simp at he
          | some l => exact ⟨l, rfl⟩
        rw [if_pos he] at hq
        subst hq
        refine ⟨jupdate_ne_nil _ _ _ hfacts.1, ?_, ?_⟩
        · rw [keys_jupdate]
          exact hfacts.2.1
        · intro e' lst' h'
          by_cases hee : r.emoji = e'
          · subst hee
            rw [jget_jupdate_self, heg0] at h'
            simp only [Option.map_some', Option.some.injEq] at h'
            have hb := hfacts.2.2 _ lst0 heg0
            by_cases hany : lst0.any (fun q => q.userId == r.userId)
            · rw [if_pos hany] at h'
              subst h'
              exact hb
            · rw [if_neg hany] at h'
              subst h'
              refine ⟨by simp, ?_, ?_⟩
              · rw [List.pairwise_append]
                refine ⟨hb.2.1, List.pairwise_singleton _ _, ?_⟩
                intro a ha b hbr
                have hnr : (a.userId == r.userId) = false := by
                  cases hx : (a.userId == r.userId) with
                  | false => rfl
                  | true => exact absurd (List.any_eq_true.2 ⟨a, ha, hx⟩) hany
                rw [List.mem_singleton.1 hbr]
                simpa using hnr
              · intro q hq'
                rcases List.mem_append.1 hq' with h1 | h2
                · exact hb.2.2 q h1
                · rw [List.mem_singleton.1 h2]
          · rw [jget_jupdate_ne _ _ hee] at h'
            exact hfacts.2.2 e' lst' h'
      · have heg0 : jget inner0 r.emoji = none := by
          unfold jhas at he
          cases hg : jget inner0 r.emoji with
          | none => rfl
          | some l => rw [hg] at he; simp at he
        rw [if_neg he, jupdate_jset] at hq
        simp only [List.any_nil, Bool.false_eq_true, if_false,
          List.nil_append] at hq
        subst hq
        refine ⟨jset_ne_nil _ _ _, ?_, ?_⟩
        · rw [jset_append_of_none _ _ heg0, List.map_append]
          refine List.Nodup.append hfacts.2.1 (List.nodup_singleton _) ?_
          intro a ha hb
          have : a = r.emoji := by simpa using hb
          rw [this] at ha
          exact not_mem_keys_of_jget_none inner0 heg0 ha
        · intro e' lst' h'
          by_cases hee : r.emoji = e'
          · subst hee
            rw [jget_jset_self] at h'
            simp only [Option.some.injEq] at h'
            subst h'
            exact ⟨by simp, List.pairwise_singleton _ _, by
              intro q hq'
              rw [List.mem_singleton.1 hq']⟩
          · rw [jget_jset_ne _ _ hee] at h'
            exact hfacts.2.2 e' lst' h'
    · rw [jget_jupdate_ne _ _ hmid] at hq
      exact hinv mid inner' hq
  · have hmg0 : jget st mid0 = none := by
      unfold jhas at hm0
      cases hg : jget st mid0 with
      | none => rfl
      | some i => rw [hg] at hm0; simp at hm0
    rw [if_neg hm0, jupdate_jset] at hq
    rw [show jhas ([] : JMap String (List Reaction)) r.emoji = false from rfl] at hq
    simp only [Bool.false_eq_true, if_false] at hq
    rw [show jset ([] : JMap String (List Reaction)) r.emoji []
        = [(r.emoji, [])] from rfl] at hq
    rw [show jupdate [(r.emoji, ([] : List Reaction))] r.emoji
          (fun lst => if (lst.any fun q => q.userId == r.userId) = true then lst
                      else lst ++ [r])
        = [(r.emoji, [r])] from by simp [jupdate]] at hq
    by_cases hmid : mid0 = mid
    · subst hmid
      rw [jget_jset_self] at hq
      simp only [Option.some.injEq] at hq
      subst hq
      refine ⟨by simp, by simp, ?_⟩
      intro e' lst' h'
      by_cases hee : (r.emoji == e') = true
      · simp only [jget, hee, if_pos, Option.some.injEq] at h'
        subst h'
        exact ⟨by simp, List.pairwise_singleton _ _, by
          intro q hq'
          rw [List.mem_singleton.1 hq']
          simpa using hee⟩
      · simp only [jget, hee, Bool.false_eq_true, if_false] at h'
        exact absurd h' (by simp [jget])
    · rw [jget_jset_ne _ _ hmid] at hq
      exact hinv mid inner' hq

theorem rinv_removeReaction (st : ReactionState) (mid0 uid0 e0 : String)
    (hinv : RInv st) : RInv (removeReaction st mid0 uid0 e0) := by
  intro mid inner' hq
  unfold removeReaction at hq
  cases hmg0 : jget st mid0 with
  | none =>
    rw [hmg0] at hq
    exact hinv mid inner' hq
  | some inner0 =>
    rw [hmg0] at hq
    simp only at hq
    cases heg0 : jget inner0 e0 with
    | none =>
      rw [heg0] at hq
      exact hinv mid inner' hq
    | some lst0 =>
      rw [heg0] at hq
      simp only at hq
      by_cases hany : lst0.any (fun q => q.userId == uid0)
      · rw [if_pos hany] at hq
        have hfacts := hinv mid0 inner0 hmg0
        have hb0 := hfacts.2.2 e0 lst0 heg0
        have hsub : (lst0.eraseP (fun q => q.userId == uid0)).Sublist lst0 :=
          List.eraseP_sublist lst0
        have hinner2 : ∀ inner2,
            (inner2 = jdel (jupdate inner0 e0
                (fun _ => lst0.eraseP (fun q => q.userId == uid0))) e0 ∨
             inner2 = jupdate inner0 e0
                (fun _ => lst0.eraseP (fun q => q.userId == uid0))) →
            (inner2.map Prod.fst).Nodup ∧
            ∀ e' lst', jget inner2 e' = some lst' →
              (e' = e0 → lst' = lst0.eraseP (fun q => q.userId == uid0)) ∧
              (e' ≠ e0 → jget inner0 e' = some lst') := by
          intro inner2 hcase
          rcases hcase with hc | hc
          · subst hc
            constructor
            · exact List.Nodup.sublist
                (List.Sublist.map _ (List.filter_sublist _))
                (by rw [keys_jupdate]; exact hfacts.2.1)
            · intro e' lst' h'
              constructor
              · intro hee
                subst hee
                rw [jget_jdel_self] at h'
                exact absurd h' (by simp)
              · intro hee
                rw [jget_jdel_ne _ (fun hc2 => hee hc2.symm),
                  jget_jupdate_ne _ _ (fun hc2 => hee hc2.symm)] at h'
                exact h'
          · subst hc
            constructor
            · rw [keys_jupdate]
              exact hfacts.2.1
            · intro e' lst' h'
              constructor
              · intro hee
                subst hee
                rw [jget_jupdate_self, heg0] at h'
                simp only [Option.map_some', Option.some.injEq] at h'
                exact h'.symm
              · intro hee
                rw [jget_jupdate_ne _ _ (fun hc2 => hee hc2.symm)] at h'
                exact h'
        by_cases hi2 :
            (if (lst0.eraseP (fun q => q.userId == uid0)).isEmpty = true
             then jdel (jupdate inner0 e0
                (fun _ => lst0.eraseP (fun q => q.userId == uid0))) e0
             else jupdate inner0 e0
                (fun _ => lst0.eraseP (fun q => q.userId == uid0))).isEmpty
        · rw [if_pos hi2] at hq
          by_cases hmid : mid0 = mid
          · subst hmid
            rw [jget_jdel_self] at hq
            exact absurd hq (by simp)
          · rw [jget_jdel_ne _ hmid, jget_jupdate_ne _ _ hmid] at hq
            exact hinv mid inner' hq
        · rw [if_neg hi2] at hq
          by_cases hmid : mid0 = mid
          · subst hmid
            rw [jget_jupdate_self, hmg0] at hq
            simp only [Option.map_some', Option.some.injEq] at hq
            have hni : inner' ≠ [] := by
              intro hc
              rw [← hq] at hc
              rw [hc] at hi2
              exact hi2 rfl
            have hrest := hinner2 inner' (by
              by_cases hle : (lst0.eraseP (fun q => q.userId == uid0)).isEmpty
              · rw [if_pos hle] at hq
                exact Or.inl hq.symm
              · rw [if_neg hle] at hq
                exact Or.inr hq.symm)
            refine ⟨hni, hrest.1, ?_⟩
            intro e' lst' h'
            by_cases hee : e' = e0
            · have hl' := (hrest.2 e' lst' h').1 hee
              subst hee
              subst hl'
              have hle : ¬(lst0.eraseP (fun q => q.userId == uid0)).isEmpty = true := by
                intro hle
                rw [if_pos hle] at hq
                rw [← hq] at h'
                rw [jget_jdel_self] at h'
                exact absurd h' (by simp)
              refine ⟨fun hc => hle (by rw [hc]; rfl), ?_, ?_⟩
              · exact List.Pairwise.sublist hsub hb0.2.1
              · intro q hq'
                exact hb0.2.2 q (hsub.subset hq')
            · have hl' := (hrest.2 e' lst' h').2 hee
              exact hfacts.2.2 e' lst' hl'
          · rw [jget_jupdate_ne _ _ hmid] at hq
            exact hinv mid inner' hq
      · rw [if_neg hany] at hq
        exact hinv mid inner' hq

theorem rinv_of_reachable (st : ReactionState) (h : RReachable st) : RInv st := by
  obtain ⟨ops, rfl⟩ := h
  have hfold : ∀ (l : List ROp) (s : ReactionState), RInv s →
      RInv (l.foldl applyROp s) := by
    intro l
    induction l with
    | nil => intro s hs; exact hs
    | cons op rest ih =>
      intro s hs
      cases op with
      | add mid r => exact ih _ (rinv_addReaction s mid r hs)
      | remove mid uid e => exact ih _ (rinv_removeReaction s mid uid e hs)
  exact hfold ops initRS (by intro mid inner hq; exact absurd hq (by simp [initRS, jget]))

/-- C2: within any reachable aggregator state, toggling the same
(messageId, emoji, userId) twice in immediate succession returns the
aggregator to its pre-toggle state: starting absent, the double toggle is
the identity on the whole state (add then remove, garbage-collected);
starting present, afterwards the user has reacted again and the bucket
holds exactly one record for that user. -/
theorem toggleReaction_twice (st : ReactionState) (h : RReachable st)
    (mid uid uname e : String) (t1 t2 : Nat) :
    (hasUserReacted st mid uid e = false →
      toggleReaction (toggleReaction st mid uid uname e t1) mid uid uname e t2
        = st) ∧
    (hasUserReacted st mid uid e = true →
      hasUserReacted (toggleReaction (toggleReaction st mid uid uname e t1)
          mid uid uname e t2) mid uid e = true ∧
      ((jget2 (toggleReaction (toggleReaction st mid uid uname e t1)
          mid uid uname e t2) mid e).getD []).countP
            (fun q => q.userId == uid) = 1) := by
  have hinv : RInv st := rinv_of_reachable st h
  constructor
  · intro hfalse
    have h1 : toggleReaction st mid uid uname e t1
        = addReaction st mid ⟨uid, uname, e, t1⟩ := by
      unfold toggleReaction
      rw [hfalse]
      simp
    have hb := jget2_addReaction st mid ⟨uid, uname, e, t1⟩
    simp only [show (⟨uid, uname, e, t1⟩ : Reaction).userId = uid from rfl,
      show (⟨uid, uname, e, t1⟩ : Reaction).emoji = e from rfl] at hb
    have hanyold : ((jget2 st mid e).getD []).any (fun q => q.userId == uid)
        = false := by
      rw [← hasUserReacted_eq]
      exact hfalse
    rw [hanyold] at hb
    simp only [Bool.false_eq_true, if_false] at hb
    have htrue1 : hasUserReacted (addReaction st mid ⟨uid, uname, e, t1⟩)
        mid uid e = true := by
      rw [hasUserReacted_eq, hb]
      simp
    rw [h1]
    unfold toggleReaction
    rw [htrue1]
    simp only [if_true]
    exact removeReaction_addReaction st mid uid e ⟨uid, uname, e, t1⟩ rfl rfl
      hinv hfalse
  · intro htrue
    have h1 : toggleReaction st mid uid uname e t1
        = removeReaction st mid uid e := by
      unfold toggleReaction
      rw [htrue]
      simp
    obtain ⟨heq, hfalse2⟩ := removeReaction_effect st mid uid e hinv htrue
    obtain ⟨inner, lst, hmg, heg, hany⟩ := hasUserReacted_true_elim htrue
    have hpw : List.Pairwise (fun a b => a.userId ≠ b.userId) lst :=
      ((hinv mid inner hmg).2.2 e lst heg).2.1
    have hbucket : (jget2 st mid e).getD [] = lst := by
      unfold jget2
      rw [hmg, Option.some_bind, heg, Option.getD_some]
    have hgone : ∀ q ∈ lst.eraseP (fun q => q.userId == uid),
        (q.userId == uid) = false := eraseP_userId_gone lst uid hpw
    have h2 : toggleReaction (removeReaction st mid uid e) mid uid uname e t2
        = addReaction (removeReaction st mid uid e) mid ⟨uid, uname, e, t2⟩ := by
      unfold toggleReaction
      rw [hfalse2]
      simp
    have hb := jget2_addReaction (removeReaction st mid uid e) mid
      ⟨uid, uname, e, t2⟩
    simp only [show (⟨uid, uname, e, t2⟩ : Reaction).userId = uid from rfl,
      show (⟨uid, uname, e, t2⟩ : Reaction).emoji = e from rfl] at hb
    rw [heq, hbucket] at hb
    rw [(any_false_iff _ _).2 hgone] at hb
    simp only [Bool.false_eq_true, if_false] at hb
    rw [h1, h2]
    constructor
    · rw [hasUserReacted_eq, hb]
      simp
    · rw [hb]
      simp only [Option.getD_some]
      rw [List.countP_append]
      have hz : (lst.eraseP (fun q => q.userId == uid)).countP
          (fun q => q.userId == uid) = 0 := by
        apply List.countP_eq_zero.2
        intro a ha
        rw [hgone a ha]
        simp
      rw [hz]
      simp [List.countP_cons]

/-- Witness for C2: a concrete reachable state in which alice has reacted
with one emoji; both toggle laws are checked at explicit inputs. -/
theorem toggleReaction_twice_witness :
    (hasUserReacted [("m1", [("x", [⟨"uA", "alice", "x", 0⟩])])] "m1" "uB" "x"
        = false →
      toggleReaction (toggleReaction [("m1", [("x", [⟨"uA", "alice", "x", 0⟩])])]
          "m1" "uB" "bob" "x" 1) "m1" "uB" "bob" "x" 2
        = [("m1", [("x", [⟨"uA", "alice", "x", 0⟩])])]) ∧
    (hasUserReacted [("m1", [("x", [⟨"uA", "alice", "x", 0⟩])])] "m1" "uB" "x"
        = false) := by
  refine ⟨?_, by decide⟩
  have hreach : RReachable [("m1", [("x", [⟨"uA", "alice", "x", 0⟩])])] :=
    ⟨[ROp.add "m1" ⟨"uA", "alice", "x", 0⟩], by decide⟩
  exact (toggleReaction_twice [("m1", [("x", [⟨"uA", "alice", "x", 0⟩])])]
    hreach "m1" "uB" "bob" "x" 1 2).1

theorem jget_of_mem_nodup {α β : Type} [BEq α] [LawfulBEq α] (m : JMap α β)
    {k : α} {v : β} (hnd : (m.map Prod.fst).Nodup) (hm : (k, v) ∈ m) :
    jget m k = some v := by
  induction m with
  | nil => simp at hm
  | cons p rest ih =>
    simp only [List.map_cons, List.nodup_cons] at hnd
    rcases List.mem_cons.1 hm with he | hm2
    · rw [← he]
      simp [jget]
    · by_cases hp : p.1 == k
      · exfalso
        have hpk : p.1 = k := by simpa using hp
        have : k ∈ rest.map Prod.fst :=
          List.mem_map.2 ⟨(k, v), hm2, rfl⟩
        rw [hpk] at hnd
        exact hnd.1 this
      · simp only [jget, hp, Bool.false_eq_true, if_false]
        exact ih hnd.2 hm2

/-- C3: in every reachable aggregator state, the reaction table of a
message never contains two records with the same (emoji, userId) pair. -/
theorem reactions_no_duplicate_pairs (st : ReactionState) (h : RReachable st)
    (mid : String) :
    (((getReactions st mid).flatMap (fun p => p.2)).map
        (fun r => (r.emoji, r.userId))).Nodup := by
  have hinv : RInv st := rinv_of_reachable st h
  unfold getReactions
  cases hmg : jget st mid with
  | none => simp
  | some inner =>
    simp only [Option.getD_some]
    have hfacts := hinv mid inner hmg
    rw [List.map_flatMap]
    apply List.nodup_flatMap.2
    constructor
    · intro p hp
      obtain ⟨e, lst⟩ := p
      have hge : jget inner e = some lst := jget_of_mem_nodup inner hfacts.2.1 hp
      have hb := hfacts.2.2 e lst hge
      have hpw : List.Pairwise
          (fun a b : Reaction => (a.emoji, a.userId) ≠ (b.emoji, b.userId)) lst := by
        refine hb.2.1.imp ?_
        intro a b hne hc
        exact hne (congrArg Prod.snd hc)
      exact List.pairwise_map.2 hpw
    · have hkeys : List.Pairwise (fun p q : String × List Reaction => p.1 ≠ q.1)
          inner := List.pairwise_map.1 hfacts.2.1
      refine List.Pairwise.imp_of_mem ?_ hkeys
      intro p q hp hq hne
      obtain ⟨ep, lp⟩ := p
      obtain ⟨eb, lq⟩ := q
      simp only at hne
      have hgp : jget inner ep = some lp := jget_of_mem_nodup inner hfacts.2.1 hp
      have hgq : jget inner eb = some lq := jget_of_mem_nodup inner hfacts.2.1 hq
      have hcp := (hfacts.2.2 ep lp hgp).2.2
      have hcq := (hfacts.2.2 eb lq hgq).2.2
      show List.Disjoint (lp.map (fun r => (r.emoji, r.userId)))
          (lq.map (fun r => (r.emoji, r.userId)))
      intro x hxp hxq
      obtain ⟨a, ha, hax⟩ := List.mem_map.1 hxp
      obtain ⟨b, hb2, hbx⟩ := List.mem_map.1 hxq
      apply hne
      have h1 : x.1 = a.emoji := by rw [← hax]
      have h2 : x.1 = b.emoji := by rw [← hbx]
      rw [← hcp a ha, ← hcq b hb2, ← h1, ← h2]

/-- Witness for C3 at a concrete reachable state. -/
theorem reactions_no_duplicate_pairs_witness :
    (((getReactions [("m1", [("x", [⟨"uA", "alice", "x", 0⟩])])] "m1").flatMap
        (fun p => p.2)).map (fun r => (r.emoji, r.userId))).Nodup :=
  reactions_no_duplicate_pairs [("m1", [("x", [⟨"uA", "alice", "x", 0⟩])])]
    ⟨[ROp.add "m1" ⟨"uA", "alice", "x", 0⟩], by decide⟩ "m1"

/-!
Invariants of the RoomManager maintained by its operations: every stored
member snapshot is keyed by its own socketId (coherence), and every room a
connection belongs to is recorded in that connection's room-set (backlink).
-/

/-- Each member entry's value carries the socketId it is keyed by. -/
def RMCoherent (s : RoomManagerState) : Prop :=
  ∀ rid room, jget s.rooms rid = some room →
    ∀ sid u, jget room.users sid = some u → u.socketId = sid

/-- Membership in a room is recorded in the member's room-set. -/
def RMBackLink (s : RoomManagerState) : Prop :=
  ∀ rid room, jget s.rooms rid = some room →
    ∀ sid u, jget room.users sid = some u →
      rid ∈ (jget s.socketToRooms sid).getD []

/-- All rooms still containing connection c lie in the given work list. -/
def NoMemberOutside (c : String) (todo : List String) (s : RoomManagerState) :
    Prop :=
  ∀ rid room, jget s.rooms rid = some room →
    ∀ u, jget room.users c = some u → rid ∈ todo

theorem coherent_createRoom (s : RoomManagerState) (rid0 : String) (now : Nat)
    (h : RMCoherent s) : RMCoherent (createRoom rid0 now s) := by
  intro rid room hq sid u hu
  unfold createRoom at hq
  by_cases hh : jhas s.rooms rid0
  · rw [if_pos hh] at hq
    exact h rid room hq sid u hu
  · rw [if_neg hh] at hq
    simp only at hq
    by_cases hr : rid0 = rid
    · subst hr
      rw [jget_jset_self] at hq
      simp only [Option.some.injEq] at hq
      rw [← hq] at hu
      simp [jget] at hu
    · rw [jget_jset_ne _ _ hr] at hq
      exact h rid room hq sid u hu

theorem coherent_joinRoom (s : RoomManagerState) (rid0 : String)
    (u0 : RoomUser) (now : Nat) (h : RMCoherent s) :
    RMCoherent (joinRoom rid0 u0 now s) := by
  have hbase : RMCoherent (if jhas s.rooms rid0 then s else createRoom rid0 now s) := by
    by_cases hh : jhas s.rooms rid0
    · rw [if_pos hh]; exact h
    · rw [if_neg hh]; exact coherent_createRoom s rid0 now h
  intro rid room hq sid u hu
  unfold joinRoom at hq
  simp only at hq
  by_cases hr : rid0 = rid
  · subst hr
    rw [jget_jupdate_self] at hq
    cases hg : jget (if jhas s.rooms rid0 then s else createRoom rid0 now s).rooms rid0 with
    | none => rw [hg] at hq; simp at hq
    | some room0 =>
      rw [hg] at hq
      simp only [Option.map_some', Option.some.injEq] at hq
      rw [← hq] at hu
      simp only at hu
      by_cases hs0 : u0.socketId = sid
      · subst hs0
        rw [jget_jset_self] at hu
        simp only [Option.some.injEq] at hu
        rw [← hu]
      · rw [jget_jset_ne _ _ hs0] at hu
        exact hbase rid0 room0 hg sid u hu
  · rw [jget_jupdate_ne _ _ hr] at hq
    exact hbase rid room hq sid u hu

theorem coherent_leaveRoom (s : RoomManagerState) (rid0 sid0 : String)
    (h : RMCoherent s) : RMCoherent (leaveRoom rid0 sid0 s) := by
  intro rid room hq sid u hu
  unfold leaveRoom at hq
  simp only at hq
  cases hg : jget s.rooms rid0 with
  | none =>
    rw [hg] at hq
    exact h rid room hq sid u hu
  | some room0 =>
    rw [hg] at hq
    simp only at hq
    by_cases hlen : (jdel room0.users sid0).length == 0
    · rw [if_pos hlen] at hq
      simp only at hq
      by_cases hr : rid0 = rid
      · subst hr
        rw [jget_jdel_self] at hq
        simp at hq
      · rw [jget_jdel_ne _ hr] at hq
        exact h rid room hq sid u hu
    · rw [if_neg hlen] at hq
      simp only at hq
      by_cases hr : rid0 = rid
      · subst hr
        rw [jget_jupdate_self, hg] at hq
        simp only [Option.map_some', Option.some.injEq] at hq
        rw [← hq] at hu
        simp only at hu
        by_cases hss : sid0 = sid
        · subst hss
          rw [jget_jdel_self] at hu
          simp at hu
        · rw [jget_jdel_ne _ hss] at hu
          exact h rid0 room0 hg sid u hu
      · rw [jget_jupdate_ne _ _ hr] at hq
        exact h rid room hq sid u hu

theorem coherent_leaveAllRooms (s : RoomManagerState) (sid0 : String)
    (h : RMCoherent s) : RMCoherent (leaveAllRooms sid0 s) := by
  unfold leaveAllRooms
  cases hg : jget s.socketToRooms sid0 with
  | none => exact h
  | some rs =>
    simp only
    have hfold : ∀ (l : List String) (st : RoomManagerState), RMCoherent st →
        RMCoherent (l.foldl (fun st roomId => leaveRoom roomId sid0 st) st) := by
      intro l
      induction l with
      | nil => intro st hst; exact hst
      | cons a as ih =>
        intro st hst
        exact ih _ (coherent_leaveRoom st a sid0 hst)
    intro rid room hq sid u hu
    exact hfold rs s h rid room hq sid u hu

theorem backlink_createRoom (s : RoomManagerState) (rid0 : String) (now : Nat)
    (h : RMBackLink s) : RMBackLink (createRoom rid0 now s) := by
  have hstr : (createRoom rid0 now s).socketToRooms = s.socketToRooms := by
    unfold createRoom
    by_cases hh : jhas s.rooms rid0 <;> simp [hh]
  intro rid room hq sid u hu
  rw [hstr]
  unfold createRoom at hq
  by_cases hh : jhas s.rooms rid0
  · rw [if_pos hh] at hq
    exact h rid room hq sid u hu
  · rw [if_neg hh] at hq
    simp only at hq
    by_cases hr : rid0 = rid
    · subst hr
      rw [jget_jset_self] at hq
      simp only [Option.some.injEq] at hq
      rw [← hq] at hu
      simp [jget] at hu
    · rw [jget_jset_ne _ _ hr] at hq
      exact h rid room hq sid u hu

theorem backlink_joinRoom (s : RoomManagerState) (rid0 : String)
    (u0 : RoomUser) (now : Nat) (h : RMBackLink s) :
    RMBackLink (joinRoom rid0 u0 now s) := by
  have hstr1 : (if jhas s.rooms rid0 then s else createRoom rid0 now s).socketToRooms
      = s.socketToRooms := by
    by_cases hh : jhas s.rooms rid0
    · rw [if_pos hh]
    · rw [if_neg hh]
      unfold createRoom
      rw [if_neg hh]
  have hbase : RMBackLink (if jhas s.rooms rid0 then s else createRoom rid0 now s) := by
    by_cases hh : jhas s.rooms rid0
    · rw [if_pos hh]; exact h
    · rw [if_neg hh]; exact backlink_createRoom s rid0 now h
  intro rid room hq sid u hu
  unfold joinRoom at hq ⊢
  simp only at hq ⊢
  rw [hstr1]
  by_cases hsid : u0.socketId = sid
  · subst hsid
    rw [jget_jupdate_self]
    obtain ⟨w, hw⟩ := jget_ensure s.socketToRooms u0.socketId ([] : List String)
    rw [hw]
    simp only [Option.map_some', Option.getD_some]
    by_cases hr : rid0 = rid
    · subst hr
      exact mem_sadd_self w rid0
    · rw [jget_jupdate_ne _ _ hr] at hq
      have hold := hbase rid room hq u0.socketId u hu
      rw [hstr1] at hold
      cases hg2 : jget s.socketToRooms u0.socketId with
      | none =>
        rw [hg2] at hold
        simp at hold
      | some w0 =>
        rw [hg2] at hold
        simp only [Option.getD_some] at hold
        have hwh : jhas s.socketToRooms u0.socketId = true := by
          unfold jhas
          rw [hg2]
          rfl
        rw [if_pos hwh, hg2] at hw
        simp only [Option.some.injEq] at hw
        rw [← hw]
        exact mem_sadd_of_mem w0 hold
  · rw [jget_jupdate_ne _ _ hsid]
    by_cases hwh : jhas s.socketToRooms u0.socketId
    · rw [if_pos hwh]
      by_cases hr : rid0 = rid
      · subst hr
        rw [jget_jupdate_self] at hq
        cases hg : jget (if jhas s.rooms rid0 then s else createRoom rid0 now s).rooms rid0 with
        | none => rw [hg] at hq; simp at hq
        | some room0 =>
          rw [hg] at hq
          simp only [Option.map_some', Option.some.injEq] at hq
          rw [← hq] at hu
          simp only at hu
          rw [jget_jset_ne _ _ hsid] at hu
          have := hbase rid0 room0 hg sid u hu
          rw [hstr1] at this
          exact this
      · rw [jget_jupdate_ne _ _ hr] at hq
        have := hbase rid room hq sid u hu
        rw [hstr1] at this
        exact this
    · rw [if_neg hwh, jget_jset_ne _ _ hsid]
      by_cases hr : rid0 = rid
      · subst hr
        rw [jget_jupdate_self] at hq
        cases hg : jget (if jhas s.rooms rid0 then s else createRoom rid0 now s).rooms rid0 with
        | none => rw [hg] at hq; simp at hq
        | some room0 =>
          rw [hg] at hq
          simp only [Option.map_some', Option.some.injEq] at hq
          rw [← hq] at hu
          simp only at hu
          rw [jget_jset_ne _ _ hsid] at hu
          have := hbase rid0 room0 hg sid u hu
          rw [hstr1] at this
          exact this
      · rw [jget_jupdate_ne _ _ hr] at hq
        have := hbase rid room hq sid u hu
        rw [hstr1] at this
        exact this

theorem mem_sdel_set (s : RoomManagerState) (sid0 rid0 sid rid : String)
    (hold : rid ∈ (jget s.socketToRooms sid).getD []) (hrne : rid ≠ rid0) :
    rid ∈ (jget (jupdate s.socketToRooms sid0 (fun rs => sdel rs rid0)) sid).getD [] := by
  by_cases hss : sid0 = sid
  · subst hss
    rw [jget_jupdate_self]
    cases hg2 : jget s.socketToRooms sid0 with
    | none => rw [hg2] at hold; simp at hold
    | some w =>
      rw [hg2] at hold
      simp only [Option.getD_some] at hold
      simp only [Option.map_some', Option.getD_some]
      exact mem_sdel_of_ne w hold hrne
  · rw [jget_jupdate_ne _ _ hss]
    exact hold

theorem backlink_leaveRoom (s : RoomManagerState) (rid0 sid0 : String)
    (h : RMBackLink s) : RMBackLink (leaveRoom rid0 sid0 s) := by
  intro rid room hq sid u hu
  unfold leaveRoom at hq ⊢
  simp only at hq ⊢
  cases hg : jget s.rooms rid0 with
  | none =>
    rw [hg] at hq
    simp only at hq ⊢
    have hrne : rid ≠ rid0 := by
      intro hc
      rw [hc, hg] at hq
      exact absurd hq (by simp)
    exact mem_sdel_set s sid0 rid0 sid rid (h rid room hq sid u hu) hrne
  | some room0 =>
    rw [hg] at hq
    simp only at hq ⊢
    by_cases hlen : (jdel room0.users sid0).length == 0
    · rw [if_pos hlen] at hq ⊢
      simp only at hq ⊢
      have hrne : rid ≠ rid0 := by
        intro hc
        rw [hc, jget_jdel_self] at hq
        exact absurd hq (by simp)
      rw [jget_jdel_ne _ (fun hc => hrne hc.symm)] at hq
      exact mem_sdel_set s sid0 rid0 sid rid (h rid room hq sid u hu) hrne
    · rw [if_neg hlen] at hq ⊢
      simp only at hq ⊢
      by_cases hr : rid0 = rid
      · subst hr
        rw [jget_jupdate_self, hg] at hq
        simp only [Option.map_some', Option.some.injEq] at hq
        rw [← hq] at hu
        simp only at hu
        have hssne : sid0 ≠ sid := by
          intro hc
          rw [hc, jget_jdel_self] at hu
          exact absurd hu (by simp)
        rw [jget_jdel_ne _ hssne] at hu
        rw [jget_jupdate_ne _ _ hssne]
        exact h rid0 room0 hg sid u hu
      · rw [jget_jupdate_ne _ _ hr] at hq
        exact mem_sdel_set s sid0 rid0 sid rid (h rid room hq sid u hu)
          (fun hc => hr hc.symm)

theorem leaveRoom_rooms_spec (s : RoomManagerState) (rid0 sid0 rid : String)
    (room : Room) (hq : jget (leaveRoom rid0 sid0 s).rooms rid = some room) :
    (rid = rid0 ∧ jget room.users sid0 = none) ∨
    (rid ≠ rid0 ∧ jget s.rooms rid = some room) := by
  unfold leaveRoom at hq
  simp only at hq
  cases hg : jget s.rooms rid0 with
  | none =>
    rw [hg] at hq
    simp only at hq
    have hr : rid ≠ rid0 := by
      intro hc
      rw [hc, hg] at hq
      exact absurd hq (by simp)
    exact Or.inr ⟨hr, hq⟩
  | some room0 =>
    rw [hg] at hq
    simp only at hq
    by_cases hlen : (jdel room0.users sid0).length == 0
    · rw [if_pos hlen] at hq
      simp only at hq
      have hr : rid ≠ rid0 := by
        intro hc
        rw [hc, jget_jdel_self] at hq
        exact absurd hq (by simp)
      rw [jget_jdel_ne _ (fun hc => hr hc.symm)] at hq
      exact Or.inr ⟨hr, hq⟩
    · rw [if_neg hlen] at hq
      simp only at hq
      by_cases hr : rid0 = rid
      · subst hr
        rw [jget_jupdate_self, hg] at hq
        simp only [Option.map_some', Option.some.injEq] at hq
        refine Or.inl ⟨rfl, ?_⟩
        rw [← hq]
        simp only
        exact jget_jdel_self _ _
      · rw [jget_jupdate_ne _ _ hr] at hq
        exact Or.inr ⟨fun hc => hr hc.symm, hq⟩

theorem fold_leave_clears (c : String) :
    ∀ (todo : List String) (s : RoomManagerState),
      RMBackLink s → NoMemberOutside c todo s →
      RMBackLink (todo.foldl (fun st rid => leaveRoom rid c st) s) ∧
      NoMemberOutside c []
        (todo.foldl (fun st rid => leaveRoom rid c st) s) := by
  intro todo
  induction todo with
  | nil => intro s hb hn; exact ⟨hb, hn⟩
  | cons a as ih =>
    intro s hb hn
    simp only [List.foldl_cons]
    apply ih
    · exact backlink_leaveRoom s a c hb
    · intro rid room hq u hu
      rcases leaveRoom_rooms_spec s a c rid room hq with ⟨hra, hnone⟩ | ⟨hra, hq2⟩
      · rw [hnone] at hu
        exact absurd hu (by simp)
      · have := hn rid room hq2 u hu
        rcases List.mem_cons.1 this with hc | hc
        · exact absurd hc hra
        · exact hc

theorem leaveAllRooms_clears (s : RoomManagerState) (c : String)
    (hb : RMBackLink s) :
    RMBackLink (leaveAllRooms c s) ∧
    (∀ rid, isUserInRoom rid c (leaveAllRooms c s) = false) ∧
    getUserRooms c (leaveAllRooms c s) = [] := by
  unfold leaveAllRooms
  cases hg : jget s.socketToRooms c with
  | none =>
    refine ⟨hb, ?_, ?_⟩
    · intro rid
      unfold isUserInRoom
      cases hq : jget s.rooms rid with
      | none => rfl
      | some room =>
        simp only
        cases hu : jget room.users c with
        | none => unfold jhas; rw [hu]; rfl
        | some u =>
          have := hb rid room hq c u hu
          rw [hg] at this
          exact absurd this (by simp)
    · unfold getUserRooms
      rw [hg]
      rfl
  | some rs =>
    simp only
    have hno : NoMemberOutside c rs s := by
      intro rid room hq u hu
      have := hb rid room hq c u hu
      rw [hg] at this
      simpa using this
    obtain ⟨hb2, hn2⟩ := fold_leave_clears c rs s hb hno
    refine ⟨?_, ?_, ?_⟩
    · intro rid room hq sid u hu
      simp only at hq ⊢
      by_cases hsc : sid = c
      · subst hsc
        exact absurd (hn2 rid room hq u hu) (by simp)
      · rw [jget_jdel_ne _ (fun hc2 => hsc hc2.symm)]
        exact hb2 rid room hq sid u hu
    · intro rid
      unfold isUserInRoom
      simp only
      cases hq : jget (rs.foldl (fun st roomId => leaveRoom roomId c st) s).rooms rid with
      | none => rfl
      | some room =>
        simp only
        cases hu : jget room.users c with
        | none => unfold jhas; rw [hu]; rfl
        | some u => exact absurd (hn2 rid room hq u hu) (by simp)
    · unfold getUserRooms
      simp only
      rw [jget_jdel_self]
      rfl

theorem rmInv_of_reachable (s : RoomManagerState) (h : RMReachable s) :
    RMCoherent s ∧ RMBackLink s := by
  obtain ⟨ops, rfl⟩ := h
  have hfold : ∀ (l : List RMOp) (st : RoomManagerState),
      RMCoherent st ∧ RMBackLink st →
      RMCoherent (l.foldl applyRMOp st) ∧ RMBackLink (l.foldl applyRMOp st) := by
    intro l
    induction l with
    | nil => intro st hst; exact hst
    | cons op rest ih =>
      intro st hst
      apply ih
      cases op with
      | create rid now =>
        exact ⟨coherent_createRoom st rid now hst.1, backlink_createRoom st rid now hst.2⟩
      | join rid u now =>
        exact ⟨coherent_joinRoom st rid u now hst.1, backlink_joinRoom st rid u now hst.2⟩
      | leave rid sid =>
        exact ⟨coherent_leaveRoom st rid sid hst.1, backlink_leaveRoom st rid sid hst.2⟩
      | leaveAll sid =>
        exact ⟨coherent_leaveAllRooms st sid hst.1, (leaveAllRooms_clears st sid hst.2).1⟩
  refine hfold ops initRM ⟨?_, ?_⟩
  · intro rid room hq
    exact absurd hq (by simp [initRM, jget])
  · intro rid room hq
    exact absurd hq (by simp [initRM, jget])

/-- C5: in every reachable RoomManager state, immediately after
leaveAllRooms the connection's room-set query is empty and the connection
is a member of no room remaining in the table. -/
theorem leaveAllRooms_complete (s : RoomManagerState) (h : RMReachable s)
    (c : String) :
    getUserRooms c (leaveAllRooms c s) = [] ∧
    ∀ rid, isUserInRoom rid c (leaveAllRooms c s) = false := by
  have hb := (rmInv_of_reachable s h).2
  obtain ⟨h1, h2, h3⟩ := leaveAllRooms_clears s c hb
  exact ⟨h3, h2⟩

/-- Witness for C5: alice joins two rooms and bob one, then alice
disconnects from all rooms. -/
theorem leaveAllRooms_complete_witness :
    getUserRooms "sA" (leaveAllRooms "sA"
      (joinRoom "r2" aliceEx 2 (joinRoom "r1" bobEx 1
        (joinRoom "r1" aliceEx 0 initRM)))) = [] ∧
    isUserInRoom "r1" "sA" (leaveAllRooms "sA"
      (joinRoom "r2" aliceEx 2 (joinRoom "r1" bobEx 1
        (joinRoom "r1" aliceEx 0 initRM)))) = false := by
  have h := leaveAllRooms_complete
    (joinRoom "r2" aliceEx 2 (joinRoom "r1" bobEx 1 (joinRoom "r1" aliceEx 0 initRM)))
    ⟨[RMOp.join "r1" aliceEx 0, RMOp.join "r1" bobEx 1, RMOp.join "r2" aliceEx 2],
      by decide⟩ "sA"
  exact ⟨h.1, h.2 "r1"⟩

/-!
Embedding of the message handlers (ChatMessageHandler, TypingIndicatorHandler,
MessageReactionHandler execute methods) and of broadcastToRoom.  A handler
consumes a schema-valid payload; results carry the unchanged registry state
plus the broadcast payload and its recipient socketIds, resolved from current
membership at call time.  The optional client timestamp of the chat schema is
ignored by the handler and therefore not modelled; the server clock is the
Nat argument.
-/

structure ChatMessage where
  message : String
  roomId : String
  messageId : String
  deriving Repr, DecidableEq

structure TypingIndicator where
  roomId : String
  isTyping : Bool
  deriving Repr, DecidableEq

structure MessageReaction where
  messageId : String
  roomId : String
  emoji : String
  deriving Repr, DecidableEq

/-- Recipients of broadcastToRoom: current members, minus the excluded
socket when one is given. -/
def broadcastRecipients (rm : RoomManagerState) (roomId : String)
    (exclude : Option String) : List String :=
  ((getRoomUsers roomId rm).filter (fun u =>
    match exclude with
    | none => true
    | some ex => u.socketId != ex)).map (fun u => u.socketId)

structure ChatBroadcast where
  messageId : String
  roomId : String
  senderUserId : String
  senderUsername : String
  message : String
  timestamp : Nat
  reactions : JMap String (List (String × String))
  recipients : List String
  deriving Repr, DecidableEq

structure TypingBroadcast where
  roomId : String
  userId : String
  username : String
  isTyping : Bool
  recipients : List String
  deriving Repr, DecidableEq

structure ReactionBroadcast where
  messageId : String
  roomId : String
  reactions : JMap String (List (String × String))
  recipients : List String
  deriving Repr, DecidableEq

/-- ChatMessageHandler.execute. -/
def chatExecute (rm : RoomManagerState) (socketId : String) (d : ChatMessage)
    (now : Nat) : Except String (RoomManagerState × ChatBroadcast) :=
  if isUserInRoom d.roomId socketId rm = false then .error "User not in room"
  else
    match (getRoomUsers d.roomId rm).find? (fun u => u.socketId == socketId) with
    | none => .error "Sender not found"
    | some sender =>
      .ok (rm,
        { messageId := d.messageId, roomId := d.roomId,
          senderUserId := sender.userId, senderUsername := sender.username,
          message := d.message, timestamp := now, reactions := [],
          recipients := broadcastRecipients rm d.roomId none })

/-- TypingIndicatorHandler.execute. -/
def typingExecute (rm : RoomManagerState) (socketId : String)
    (d : TypingIndicator) : Except String (RoomManagerState × TypingBroadcast) :=
  if isUserInRoom d.roomId socketId rm = false then .error "User not in room"
  else
    match (getRoomUsers d.roomId rm).find? (fun u => u.socketId == socketId) with
    | none => .error "Typer not found"
    | some typer =>
      .ok (rm,
        { roomId := d.roomId, userId := typer.userId,
          username := typer.username, isTyping := d.isTyping,
          recipients := broadcastRecipients rm d.roomId (some socketId) })

/-- MessageReactionHandler.execute. -/
def reactionExecute (rm : RoomManagerState) (rs : ReactionState)
    (socketId : String) (d : MessageReaction) (now : Nat) :
    Except String (ReactionState × ReactionBroadcast) :=
  if isUserInRoom d.roomId socketId rm = false then .error "User not in room"
  else
    match (getRoomUsers d.roomId rm).find? (fun u => u.socketId == socketId) with
    | none => .error "User not found"
    | some user =>
      let rs1 := toggleReaction rs d.messageId user.userId user.username d.emoji now
      .ok (rs1,
        { messageId := d.messageId, roomId := d.roomId,
          reactions := (getReactions rs1 d.messageId).map
            (fun p => (p.1, p.2.map (fun r => (r.userId, r.username)))),
          recipients := broadcastRecipients rm d.roomId none })

/-- Under coherence, the membership guard guarantees the roster scan finds
the member keyed by that socket id. -/
theorem find_member (rm : RoomManagerState) (hcoh : RMCoherent rm)
    (rid sid : String) (hin : isUserInRoom rid sid rm = true) :
    ((getRoomUsers rid rm).find? (fun v => v.socketId == sid)).isSome = true := by
  unfold isUserInRoom at hin
  cases hq : jget rm.rooms rid with
  | none => rw [hq] at hin; simp at hin
  | some room =>
    rw [hq] at hin
    simp only at hin
    unfold jhas at hin
    cases hu : jget room.users sid with
    | none => rw [hu] at hin; simp at hin
    | some u =>
      have hus : u.socketId = sid := hcoh rid room hq sid u hu
      have hmem : u ∈ getRoomUsers rid rm := by
        unfold getRoomUsers
        rw [hq]
        exact List.mem_map.2 ⟨(sid, u), jget_mem room.users hu, rfl⟩
      rw [List.find?_isSome]
      exact ⟨u, hmem, by simp [hus]⟩

theorem broadcastRecipients_none (rm : RoomManagerState) (rid : String) :
    broadcastRecipients rm rid none
      = (getRoomUsers rid rm).map (fun u => u.socketId) := by
  unfold broadcastRecipients
  simp

theorem broadcastRecipients_some (rm : RoomManagerState) (rid ex : String) :
    broadcastRecipients rm rid (some ex)
      = ((getRoomUsers rid rm).filter (fun u => u.socketId != ex)).map
          (fun u => u.socketId) := rfl

theorem chatExecute_ok (s : RoomManagerState) (hcoh : RMCoherent s)
    (sid : String) (d : ChatMessage) (now : Nat)
    (hin : isUserInRoom d.roomId sid s = true) :
    ∃ sender,
      (getRoomUsers d.roomId s).find? (fun v => v.socketId == sid) = some sender ∧
      chatExecute s sid d now = .ok (s,
        { messageId := d.messageId, roomId := d.roomId,
          senderUserId := sender.userId, senderUsername := sender.username,
          message := d.message, timestamp := now, reactions := [],
          recipients := broadcastRecipients s d.roomId none }) := by
  have hfind := find_member s hcoh d.roomId sid hin
  obtain ⟨sender, hsender⟩ := Option.isSome_iff_exists.1 hfind
  refine ⟨sender, hsender, ?_⟩
  unfold chatExecute
  rw [if_neg (by simp [hin]), hsender]

theorem typingExecute_ok (s : RoomManagerState) (hcoh : RMCoherent s)
    (sid : String) (d : TypingIndicator)
    (hin : isUserInRoom d.roomId sid s = true) :
    ∃ typer,
      (getRoomUsers d.roomId s).find? (fun v => v.socketId == sid) = some typer ∧
      typingExecute s sid d = .ok (s,
        { roomId := d.roomId, userId := typer.userId,
          username := typer.username, isTyping := d.isTyping,
          recipients := broadcastRecipients s d.roomId (some sid) }) := by
  have hfind := find_member s hcoh d.roomId sid hin
  obtain ⟨typer, htyper⟩ := Option.isSome_iff_exists.1 hfind
  refine ⟨typer, htyper, ?_⟩
  unfold typingExecute
  rw [if_neg (by simp [hin]), htyper]

theorem reactionExecute_ok (s : RoomManagerState) (rs : ReactionState)
    (hcoh : RMCoherent s) (sid : String) (d : MessageReaction) (now : Nat)
    (hin : isUserInRoom d.roomId sid s = true) :
    ∃ user,
      (getRoomUsers d.roomId s).find? (fun v => v.socketId == sid) = some user ∧
      reactionExecute s rs sid d now = .ok
        (toggleReaction rs d.messageId user.userId user.username d.emoji now,
        { messageId := d.messageId, roomId := d.roomId,
          reactions := (getReactions
            (toggleReaction rs d.messageId user.userId user.username d.emoji now)
            d.messageId).map
              (fun p => (p.1, p.2.map (fun r => (r.userId, r.username)))),
          recipients := broadcastRecipients s d.roomId none }) := by
  have hfind := find_member s hcoh d.roomId sid hin
  obtain ⟨user, huser⟩ := Option.isSome_iff_exists.1 hfind
  refine ⟨user, huser, ?_⟩
  unfold reactionExecute
  rw [if_neg (by simp [hin]), huser]

/-- C6: for every schema-valid chat payload, the handler fails with the
User-not-in-room domain error iff the sender is not a member; on failure no
broadcast is produced, and on success the registry state is returned
unchanged and the full chat payload (sender identity, text, server
timestamp, empty reaction map) is broadcast to all members, sender
included. -/
theorem chatMessage_spec (s : RoomManagerState) (h : RMReachable s)
    (sid : String) (d : ChatMessage) (now : Nat) :
    (isUserInRoom d.roomId sid s = false →
      chatExecute s sid d now = .error "User not in room") ∧
    (isUserInRoom d.roomId sid s = true →
      ∃ sender,
        (getRoomUsers d.roomId s).find? (fun v => v.socketId == sid)
          = some sender ∧
        chatExecute s sid d now = .ok (s,
          { messageId := d.messageId, roomId := d.roomId,
            senderUserId := sender.userId, senderUsername := sender.username,
            message := d.message, timestamp := now, reactions := [],
            recipients := (getRoomUsers d.roomId s).map (fun u => u.socketId) }) ∧
        sid ∈ (getRoomUsers d.roomId s).map (fun u => u.socketId)) := by
  constructor
  · intro hout
    unfold chatExecute
    rw [if_pos hout]
  · intro hin
    have hcoh := (rmInv_of_reachable s h).1
    obtain ⟨sender, hsender, hok⟩ := chatExecute_ok s hcoh sid d now hin
    refine ⟨sender, hsender, ?_, ?_⟩
    · rw [hok, broadcastRecipients_none]
    · have hmem := List.mem_of_find?_eq_some hsender
      have hps := List.find?_some hsender
      have : sender.socketId = sid := by simpa using hps
      rw [← this]
      exact List.mem_map.2 ⟨sender, hmem, rfl⟩

/-- Witness for C6: alice chats in a room she shares with bob. -/
theorem chatMessage_spec_witness :
    chatExecute (joinRoom "r1" bobEx 1 (joinRoom "r1" aliceEx 0 initRM))
        "sA" ⟨"hi", "r1", "m1"⟩ 5
      = .ok (joinRoom "r1" bobEx 1 (joinRoom "r1" aliceEx 0 initRM),
        { messageId := "m1", roomId := "r1", senderUserId := "uA",
          senderUsername := "alice", message := "hi", timestamp := 5,
          reactions := [], recipients := ["sA", "sB"] }) := by
  obtain ⟨sender, hsender, hok, hmem⟩ :=
    (chatMessage_spec (joinRoom "r1" bobEx 1 (joinRoom "r1" aliceEx 0 initRM))
      ⟨[RMOp.join "r1" aliceEx 0, RMOp.join "r1" bobEx 1], by decide⟩
      "sA" ⟨"hi", "r1", "m1"⟩ 5).2 (by decide)
  have hs2 : sender = aliceEx := by
    have hconc : (getRoomUsers "r1"
        (joinRoom "r1" bobEx 1 (joinRoom "r1" aliceEx 0 initRM))).find?
          (fun v => v.socketId == "sA") = some aliceEx := by decide
    rw [hconc] at hsender
    exact (Option.some_inj.1 hsender).symm
  rw [hs2] at hok
  rw [hok]
  exact congrArg Except.ok (by decide)

/-- C8: for every typing event whose sender is a member of the room, the
typing state is delivered to every current member except the sender, the
sender is never a recipient, and the registry state is unchanged. -/
theorem typing_spec (s : RoomManagerState) (h : RMReachable s)
    (sid : String) (d : TypingIndicator)
    (hin : isUserInRoom d.roomId sid s = true) :
    ∃ typer,
      (getRoomUsers d.roomId s).find? (fun v => v.socketId == sid)
        = some typer ∧
      typingExecute s sid d = .ok (s,
        { roomId := d.roomId, userId := typer.userId,
          username := typer.username, isTyping := d.isTyping,
          recipients := ((getRoomUsers d.roomId s).filter
            (fun u => u.socketId != sid)).map (fun u => u.socketId) }) ∧
      sid ∉ ((getRoomUsers d.roomId s).filter
        (fun u => u.socketId != sid)).map (fun u => u.socketId) ∧
      (∀ u ∈ getRoomUsers d.roomId s, u.socketId ≠ sid →
        u.socketId ∈ ((getRoomUsers d.roomId s).filter
          (fun u => u.socketId != sid)).map (fun u => u.socketId)) := by
  have hcoh := (rmInv_of_reachable s h).1
  obtain ⟨typer, htyper, hok⟩ := typingExecute_ok s hcoh sid d hin
  refine ⟨typer, htyper, ?_, ?_, ?_⟩
  · rw [hok, broadcastRecipients_some]
  · intro hcontra
    obtain ⟨u, hu, hus⟩ := List.mem_map.1 hcontra
    have := List.of_mem_filter hu
    rw [hus] at this
    simp at this
  · intro u hu hne
    refine List.mem_map.2 ⟨u, ?_, rfl⟩
    exact List.mem_filter.2 ⟨hu, by simpa using hne⟩

/-- Witness for C8: alice types in a room she shares with bob; only bob
receives the event. -/
theorem typing_spec_witness :
    typingExecute (joinRoom "r1" bobEx 1 (joinRoom "r1" aliceEx 0 initRM))
        "sA" ⟨"r1", true⟩
      = .ok (joinRoom "r1" bobEx 1 (joinRoom "r1" aliceEx 0 initRM),
        { roomId := "r1", userId := "uA", username := "alice",
          isTyping := true, recipients := ["sB"] }) := by
  obtain ⟨typer, htyper, hok, hnot, hall⟩ :=
    typing_spec (joinRoom "r1" bobEx 1 (joinRoom "r1" aliceEx 0 initRM))
      ⟨[RMOp.join "r1" aliceEx 0, RMOp.join "r1" bobEx 1], by decide⟩
      "sA" ⟨"r1", true⟩ (by decide)
  have hs2 : typer = aliceEx := by
    have hconc : (getRoomUsers "r1"
        (joinRoom "r1" bobEx 1 (joinRoom "r1" aliceEx 0 initRM))).find?
          (fun v => v.socketId == "sA") = some aliceEx := by decide
    rw [hconc] at htyper
    exact (Option.some_inj.1 htyper).symm
  rw [hs2] at hok
  rw [hok]
  exact congrArg Except.ok (by decide)

/-- C9: in every reachable RoomManager state, whenever isUserInRoom returns
true the roster scan for that socket id succeeds, so the Sender-not-found,
User-not-found and Typer-not-found branches of the three handlers are
unreachable under sequential execution. -/
theorem guard_excludes_not_found (s : RoomManagerState) (h : RMReachable s)
    (sid rid : String) (hin : isUserInRoom rid sid s = true) :
    ((getRoomUsers rid s).find? (fun v => v.socketId == sid)).isSome = true ∧
    (∀ (msg mid : String) (now : Nat),
      chatExecute s sid ⟨msg, rid, mid⟩ now ≠ .error "Sender not found") ∧
    (∀ (rs : ReactionState) (mid emo : String) (now : Nat),
      reactionExecute s rs sid ⟨mid, rid, emo⟩ now ≠ .error "User not found") ∧
    (∀ b : Bool, typingExecute s sid ⟨rid, b⟩ ≠ .error "Typer not found") := by
  have hcoh := (rmInv_of_reachable s h).1
  refine ⟨find_member s hcoh rid sid hin, ?_, ?_, ?_⟩
  · intro msg mid now hcontra
    obtain ⟨sender, hsender, hok⟩ :=
      chatExecute_ok s hcoh sid ⟨msg, rid, mid⟩ now hin
    rw [hok] at hcontra
    exact absurd hcontra (by simp)
  · intro rs mid emo now hcontra
    obtain ⟨user, huser, hok⟩ :=
      reactionExecute_ok s rs hcoh sid ⟨mid, rid, emo⟩ now hin
    rw [hok] at hcontra
    exact absurd hcontra (by simp)
  · intro b hcontra
    obtain ⟨typer, htyper, hok⟩ :=
      typingExecute_ok s hcoh sid ⟨rid, b⟩ hin
    rw [hok] at hcontra
    exact absurd hcontra (by simp)

/-- Witness for C9 at a concrete reachable state. -/
theorem guard_excludes_not_found_witness :
    ((getRoomUsers "r1" (joinRoom "r1" aliceEx 0 initRM)).find?
      (fun v => v.socketId == "sA")).isSome = true ∧
    chatExecute (joinRoom "r1" aliceEx 0 initRM) "sA" ⟨"hi", "r1", "m1"⟩ 3
      ≠ .error "Sender not found" := by
  have h := guard_excludes_not_found (joinRoom "r1" aliceEx 0 initRM)
    ⟨[RMOp.join "r1" aliceEx 0], by decide⟩ "sA" "r1" (by decide)
  exact ⟨h.1, h.2.1 "hi" "m1" 3⟩

/-!
Embedding of MessageRouter.route: handler-table lookup, UnknownEventError
when absent, invocation otherwise, rethrowing the handler's own error
unchanged (modelled by the handlerError wrapper marking provenance).
-/

inductive RouteError (ε : Type) where
  | unknownEvent (message : String)
  | handlerError (e : ε)
  deriving Repr, DecidableEq

/-- MessageRouter.route. -/
def route {δ ε : Type}
    (handlers : JMap String (String → String → δ → Except ε Unit))
    (socketId eventName : String) (payload : δ) : Except (RouteError ε) Unit :=
  match jget handlers eventName with
  | none =>
    .error (.unknownEvent ("No handler registered for event: " ++ eventName))
  | some handler =>
    match handler socketId eventName payload with
    | .ok _ => .ok ()
    | .error e => .error (.handlerError e)

/-- C7: route fails with UnknownEventError iff no handler is registered for
the event name, and any error raised by the invoked handler is propagated
unchanged; a succeeding handler yields success. -/
theorem route_spec {δ ε : Type}
    (handlers : JMap String (String → String → δ → Except ε Unit))
    (sid ev : String) (d : δ) :
    (jget handlers ev = none →
      route handlers sid ev d
        = .error (.unknownEvent ("No handler registered for event: " ++ ev))) ∧
    ((∃ msg, route handlers sid ev d = .error (.unknownEvent msg)) →
      jget handlers ev = none) ∧
    (∀ h e, jget handlers ev = some h → h sid ev d = .error e →
      route handlers sid ev d = .error (.handlerError e)) ∧
    (∀ h, jget handlers ev = some h → h sid ev d = .ok () →
      route handlers sid ev d = .ok ()) := by
  refine ⟨?_, ?_, ?_, ?_⟩
  · intro hnone
    unfold route
    rw [hnone]
  · rintro ⟨msg, hmsg⟩
    unfold route at hmsg
    cases hg : jget handlers ev with
    | none => rfl
    | some h =>
      rw [hg] at hmsg
      simp only at hmsg
      cases hh : h sid ev d with
      | ok u =>
        rw [hh] at hmsg
        exact absurd hmsg (by simp)
      | error e =>
        rw [hh] at hmsg
        simp at hmsg
  · intro h e hg hh
    unfold route
    rw [hg]
    simp only
    rw [hh]
  · intro h hg hh
    unfold route
    rw [hg]
    simp only
    rw [hh]

/-- Example handler table for the C7 witness. -/
def routeHandlersEx : JMap String (String → String → Nat → Except String Unit) :=
  [("chat", fun _ _ _ => .ok ()), ("boom", fun _ _ _ => .error "boom")]

/-- Witness for C7: a missing event fails with UnknownEventError, a failing
handler's error is propagated unchanged, a succeeding handler acks. -/
theorem route_spec_witness :
    route routeHandlersEx "s1" "nope" 0
      = .error (.unknownEvent "No handler registered for event: nope") ∧
    route routeHandlersEx "s1" "boom" 0 = .error (.handlerError "boom") ∧
    route routeHandlersEx "s1" "chat" 0 = .ok () := by
  refine ⟨(route_spec routeHandlersEx "s1" "nope" 0).1 rfl,
    (route_spec routeHandlersEx "s1" "boom" 0).2.2.1
      (fun _ _ _ => .error "boom") "boom" rfl rfl,
    (route_spec routeHandlersEx "s1" "chat" 0).2.2.2
      (fun _ _ _ => .ok ()) rfl rfl⟩

/-!
Embedding of WebSocketServer.handleDisconnect: read the disconnecting
connection's rooms, then for each room snapshot the leaving user, leave the
room, and if the snapshot was found emit one room:user_left broadcast with
the remaining roster, resolved at broadcast time; only after all rooms are
processed is the connection removed from the ConnectionManager.  The trace
records each broadcast together with what getUserBySocket returned for the
disconnecting socket at that moment.
-/

structure ServerState where
  rm : RoomManagerState
  cm : ConnectionManagerState
  deriving Repr, DecidableEq

inductive DiscEvent where
  | userLeft (roomId : String) (leaverUserId leaverUsername : String)
      (roster : List (String × String)) (recipients : List String)
      (resolvedUser : Option String)
  | removedConnection (socketId : String)
  deriving Repr, DecidableEq

/-- Body of the per-room loop of handleDisconnect. -/
def discStep (socketId : String) (acc : ServerState × List DiscEvent)
    (roomId : String) : ServerState × List DiscEvent :=
  let users := getRoomUsers roomId acc.1.rm
  let leavingUser := users.find? (fun u => u.socketId == socketId)
  let rm1 := leaveRoom roomId socketId acc.1.rm
  let st1 : ServerState := { acc.1 with rm := rm1 }
  match leavingUser with
  | some u =>
    (st1, acc.2 ++ [DiscEvent.userLeft roomId u.userId u.username
      ((getRoomUsers roomId rm1).map (fun v => (v.userId, v.username)))
      (broadcastRecipients rm1 roomId none)
      (getUserBySocket socketId st1.cm)])
  | none => (st1, acc.2)

/-- WebSocketServer.handleDisconnect. -/
def handleDisconnect (s : ServerState) (socketId : String) :
    ServerState × List DiscEvent :=
  let res := (getUserRooms socketId s.rm).foldl (discStep socketId) (s, [])
  ({ res.1 with cm := removeConnection socketId res.1.cm },
    res.2 ++ [DiscEvent.removedConnection socketId])

theorem discStep_cm (sid : String) (acc : ServerState × List DiscEvent)
    (rid : String) : (discStep sid acc rid).1.cm = acc.1.cm := by
  unfold discStep
  simp only
  cases hf : (getRoomUsers rid acc.1.rm).find? (fun u => u.socketId == sid) with
  | none => rfl
  | some u => rfl

theorem discStep_events (sid : String) (acc : ServerState × List DiscEvent)
    (rid : String) :
    (discStep sid acc rid).2 = acc.2 ∨
    ∃ luid lname roster recips,
      (discStep sid acc rid).2 = acc.2 ++
        [DiscEvent.userLeft rid luid lname roster recips
          (getUserBySocket sid acc.1.cm)] := by
  unfold discStep
  simp only
  cases hf : (getRoomUsers rid acc.1.rm).find? (fun u => u.socketId == sid) with
  | none => exact Or.inl rfl
  | some u => exact Or.inr ⟨u.userId, u.username, _, _, rfl⟩

/-- C4: on disconnect, every cleanup broadcast is emitted while the
connection is still resolvable to its user, and removeConnection runs only
after all rooms are processed, as the final action of the trace. -/
theorem handleDisconnect_spec (s : ServerState) (sid uid : String)
    (hbound : getUserBySocket sid s.cm = some uid) :
    ∃ bs, (handleDisconnect s sid).2 = bs ++ [DiscEvent.removedConnection sid] ∧
      (∀ ev ∈ bs, ∃ roomId luid lname roster recips,
        ev = DiscEvent.userLeft roomId luid lname roster recips (some uid)) ∧
      (handleDisconnect s sid).1.cm = removeConnection sid s.cm := by
  have hfold : ∀ (todo : List String) (acc : ServerState × List DiscEvent),
      acc.1.cm = s.cm →
      (∀ ev ∈ acc.2, ∃ roomId luid lname roster recips,
        ev = DiscEvent.userLeft roomId luid lname roster recips (some uid)) →
      (todo.foldl (discStep sid) acc).1.cm = s.cm ∧
      (∀ ev ∈ (todo.foldl (discStep sid) acc).2,
        ∃ roomId luid lname roster recips,
          ev = DiscEvent.userLeft roomId luid lname roster recips (some uid)) := by
    intro todo
    induction todo with
    | nil => intro acc hcm hev; exact ⟨hcm, hev⟩
    | cons a as ih =>
      intro acc hcm hev
      simp only [List.foldl_cons]
      apply ih
      · rw [discStep_cm]
        exact hcm
      · rcases discStep_events sid acc a with hsame | ⟨luid, lname, roster, recips, happ⟩
        · rw [hsame]
          exact hev
        · rw [happ]
          intro ev hevmem
          rcases List.mem_append.1 hevmem with hmem | hmem
          · exact hev ev hmem
          · rw [List.mem_singleton.1 hmem]
            rw [hcm, hbound]
            exact ⟨a, luid, lname, roster, recips, rfl⟩
  obtain ⟨hcm2, hev2⟩ :=
    hfold (getUserRooms sid s.rm) (s, []) rfl (by intro ev hev; simp at hev)
  refine ⟨((getUserRooms sid s.rm).foldl (discStep sid) (s, [])).2, rfl, hev2, ?_⟩
  unfold handleDisconnect
  simp only
  rw [hcm2]

/-- Witness for C4: alice (two rooms, one shared with bob) disconnects; the
connection map is updated only after the per-room broadcasts. -/
theorem handleDisconnect_spec_witness :
    (handleDisconnect
      { rm := joinRoom "r2" aliceEx 2 (joinRoom "r1" bobEx 1
          (joinRoom "r1" aliceEx 0 initRM)),
        cm := addConnection "sA" "uA" initCM } "sA").1.cm
      = removeConnection "sA" (addConnection "sA" "uA" initCM) := by
  obtain ⟨bs, h1, h2, h3⟩ := handleDisconnect_spec
    { rm := joinRoom "r2" aliceEx 2 (joinRoom "r1" bobEx 1
        (joinRoom "r1" aliceEx 0 initRM)),
      cm := addConnection "sA" "uA" initCM } "sA" "uA" (by decide)
  exact h3
